import Mathlib

/-!
Verification development for the `geometry_api` module of the sysmlv2_dls
repository (source: src/src/geometry_api/geometry_api.py).

Modelling conventions:
* Python floats are modelled as exact rationals (`ℚ`); float arithmetic is
  replaced by exact rational arithmetic ("up to floating-point representation").
* The externally parsed SysML document tree (the syside model) is modelled by
  the inductive `Element`: part usages, attribute usages, literal/expression
  nodes, and other nodes, each owning an ordered list of child elements.
* Python exceptions are modelled by `Except PyErr` (or by explicitly threaded
  stores where the source catches exceptions mid-traversal).
* Python dictionaries keyed by strings are modelled as association lists where
  a later write shadows earlier ones (`dset` prepends, `dget` finds the most
  recent binding).
* The `transformations` module (`transformation_matrix`, `euler_from_matrix`)
  belongs to this repository but is absent from src/; it is modelled from the
  spec (section 4.1), see `transformationMatrix` below, and the accumulator
  theorems quantify over arbitrary build/extract functions.
-/

set_option allowUnsafeReducibility true

attribute [local semireducible] Rat.mul Rat.add Rat.inv Rat.sub Rat.div Rat.neg Rat.ofScientific

abbrev Q3 := ℚ × ℚ × ℚ

abbrev Mat4Q := Matrix (Fin 4) (Fin 4) ℚ

/-- The IEEE-754 double value of Python `math.pi`: 884279719003555 / 2^48. -/
def mathPi : ℚ := 884279719003555 / 281474976710656

/-- Degree-to-radian conversion at the input boundary of
`components_from_part_world` (`to_rad`, geometry_api.py line 306):
applied only when `angles_in_degrees` is set. -/
def toRadQ (deg : Bool) (a : ℚ) : ℚ := if deg then a * mathPi / 180 else a

/-- Radian-to-degree conversion at the output boundary
(`to_deg`, geometry_api.py line 307). -/
def toDegQ (a : ℚ) : ℚ := a * 180 / mathPi

/-- Python exception kinds observable from the embedded operations. -/
inductive PyErr where
  | typeError
  | valueError
  | indexError
deriving DecidableEq, Repr

/-- A Python value stored in an attribute dictionary: either a float
(modelled as `ℚ`) or a string. -/
inductive PyVal where
  | num (q : ℚ)
  | str (s : String)
deriving DecidableEq, Repr

/-- The first owned element of an `AttributeUsage` in the syside tree:
a literal rational/integer/string, or a non-literal `Expression` whose
provider evaluation result is `some` number, or `none` when the provider
cannot reduce it to a number. -/
inductive Lit where
  | rational (v : ℚ)
  | integer (v : ℤ)
  | str (s : String)
  | expr (val : Option ℚ)
deriving DecidableEq, Repr

/-- A syside model element: a `PartUsage` (with name and the names of its
part definitions), an `AttributeUsage`, a literal/expression node, or any
other element kind.  Every element owns an ordered list of elements
(`owned_elements`). -/
inductive Element where
  | part (name : Option String) (defs : List String) (owned : List Element)
  | attr (name : String) (owned : List Element)
  | lit (l : Lit)
  | other (owned : List Element)

/-- `owned_elements` of an element. -/
def childrenOf : Element → List Element
  | .part _ _ o => o
  | .attr _ o => o
  | .lit _ => []
  | .other o => o

/-- String-keyed Python dict of attribute values. -/
abbrev Vals := List (String × PyVal)

/-- Dict write: `vals[k] = v` (prepend; the most recent binding shadows). -/
def dset (k : String) (v : PyVal) (vs : Vals) : Vals := (k, v) :: vs

/-- Dict read: `vals.get(k)`. -/
def dget (vs : Vals) (k : String) : Option PyVal :=
  (vs.find? (fun p => p.1 == k)).map (·.2)

/-- Dict read for numeric-only dicts. -/
def dgetQ (vs : List (String × ℚ)) (k : String) : Option ℚ :=
  (vs.find? (fun p => p.1 == k)).map (·.2)

/-- Space test (the only whitespace the embedded texts contain). -/
def isSpaceC (c : Char) : Bool := c == (' ' : Char)

/-- Strip leading and trailing spaces (structural counterpart of
Python/`String.trim` whitespace stripping for the texts at hand). -/
def trimChars (cs : List Char) : List Char :=
  ((cs.dropWhile isSpaceC).reverse.dropWhile isSpaceC).reverse

/-- Split a character list at every occurrence of `sep`. -/
def splitCharsAux (sep : Char) : List Char → List Char → List (List Char)
  | [], acc => [acc.reverse]
  | c :: rest, acc =>
      if c == sep then acc.reverse :: splitCharsAux sep rest []
      else splitCharsAux sep rest (c :: acc)

/-- Split a character list at every occurrence of `sep`. -/
def splitChars (sep : Char) (cs : List Char) : List (List Char) :=
  splitCharsAux sep cs []

/-- Parse a digit list into a natural number (`none` if empty or non-digit). -/
def natOfDigits? (cs : List Char) : Option ℕ :=
  if cs.isEmpty then none
  else if cs.all Char.isDigit then
    some (cs.foldl (fun a c => 10 * a + (c.toNat - 48)) 0)
  else none

/-- Model of Python `float(s)` on a string, restricted to plain decimal,
integer and exact-fraction forms (the forms the embedding ever prints);
`none` models `ValueError`. -/
def parseRat (s : String) : Option ℚ :=
  let cs := trimChars s.data
  let signed : Bool × List Char :=
    match cs with
    | c :: rest => if c == ('-' : Char) then (true, rest) else (false, cs)
    | [] => (false, [])
  let mag : Option ℚ :=
    match splitChars ('/' : Char) signed.2 with
    | [a, b] => do
        let x ← natOfDigits? a
        let y ← natOfDigits? b
        if y = 0 then none else some ((x : ℚ) / (y : ℚ))
    | [a] =>
        match splitChars ('.' : Char) a with
        | [w] => (natOfDigits? w).map (fun n => (n : ℚ))
        | [w, f] => do
            let x ← natOfDigits? w
            let y ← natOfDigits? f
            some ((x : ℚ) + (y : ℚ) / ((10 : ℚ) ^ f.length))
        | _ => none
    | _ => none
  mag.map (fun m => if signed.1 then -m else m)

/-- Exact-rational rendering of a float value (the embedding's counterpart
of Python's full-precision float printing in `to_textual`). -/
def ratStr (q : ℚ) : String :=
  if q.den = 1 then toString q.num else toString q.num ++ "/" ++ toString q.den

/-- Python `int()` truncation (toward zero) of a float. -/
def truncQ (q : ℚ) : ℤ := if 0 ≤ q then ⌊q⌋ else ⌈q⌉

/-- `_to_float` of `components_from_part_world` (geometry_api.py lines
310-314): try `float(x)`, fall back to the value unchanged. -/
def toFloatPy (v : PyVal) : PyVal :=
  match v with
  | .num q => .num q
  | .str s =>
      match parseRat s with
      | some q => .num q
      | none => .str s

example : parseRat ("3/2") = some (3 / 2 : ℚ) := by decide
example : parseRat ("1.5") = some (3 / 2 : ℚ) := by decide
example : parseRat ("-7") = some (-7 : ℚ) := by decide
example : parseRat ("abc") = none := by decide

/-! ## The world-pose accumulator `components_from_part_world`
(geometry_api.py lines 298-420). -/

/-- One evaluated attribute value in `collect_attr` of
`components_from_part_world` (lines 343-358): literal rationals/integers and
strings pass through; a non-literal `Expression` is evaluated by the provider
(`syside.Compiler`), and `float(result)` raises a `TypeError` when the
provider could not reduce it to a number. -/
def evalWLit : Lit → Except PyErr PyVal
  | .rational v => .ok (.num v)
  | .integer n => .ok (.num (n : ℚ))
  | .str s => .ok (.str s)
  | .expr (some v) => .ok (.num v)
  | .expr none => .error .typeError

/-- `collect_attr` folded over the owned elements of a part
(`owned.for_each(collect_attr)`, line 363): every `AttributeUsage` child
contributes the evaluation of its first owned element when that element is
a literal or expression; other elements are skipped. -/
def collectW : List Element → Vals → Except PyErr Vals
  | [], vs => .ok vs
  | .attr nm owned :: rest, vs =>
      match owned.head? with
      | some (.lit l) =>
          match evalWLit l with
          | .error e => .error e
          | .ok v => collectW rest (dset nm v vs)
      | _ => collectW rest vs
  | _ :: rest, vs => collectW rest vs

/-- Read one pose scalar: `vals.get(k, 0.0)` followed by its use in
arithmetic/matrix construction; a string value raises `TypeError` there
(lines 366-370). -/
def getNumD (vs : Vals) (k : String) : Except PyErr ℚ :=
  match dget vs k with
  | none => .ok 0
  | some (.num q) => .ok q
  | some (.str _) => .error .typeError

/-- Python string indexing `s[i]` (yields a 1-character string, raises
`IndexError` out of range). -/
def pyCharAt (s : String) (i : ℕ) : Except PyErr String :=
  match s.data.get? i with
  | some c => .ok (String.singleton c)
  | none => .error .indexError

/-- The `parent_name`/`parent_typeID` fields of an emitted record
(lines 403-404): `parent_state["comp_parent"]` is a *string* (the ancestor's
name, see line 412), so truthiness tests it against `None`/`""` and the two
fields are its `[0]` and `[1]` characters. -/
def compParentFields (cp : Option String) : Except PyErr (Option String × Option String) :=
  match cp with
  | none => .ok (none, none)
  | some s =>
      if s = "" then .ok (none, none)
      else
        match pyCharAt s 0 with
        | .error e => .error e
        | .ok a =>
            match pyCharAt s 1 with
            | .error e => .error e
            | .ok b => .ok (some a, some b)

/-- A record emitted by `components_from_part_world` (lines 388-408), after
`_normalize` (line 409). -/
structure WRec where
  name : PyVal
  tx : ℚ
  ty : ℚ
  tz : ℚ
  rx : ℚ
  ry : ℚ
  rz : ℚ
  abs_tx : ℚ
  abs_ty : ℚ
  abs_tz : ℚ
  abs_rx : ℚ
  abs_ry : ℚ
  abs_rz : ℚ
  parent_name : Option PyVal
  parent_typeID : Option PyVal
  onshape_url : Option PyVal
deriving DecidableEq, Repr

/-- The state threaded down the traversal (lines 323-335): the absolute
transform of the current frame and the name stored as nearest emitted
component ancestor. -/
structure WState where
  T : Mat4Q
  compParent : Option String

mutual

/-- `visit` of `components_from_part_world` (lines 323-419), parameterized by
the `angles_in_degrees` flag and by the two transform-library functions
`transformation_matrix` (`tm`) and `euler_from_matrix` (`ef`); those belong
to the repository's `transformations` module, which is absent from src/, so
the development treats them as opaque parameters (the `euler_axes` key is
folded into `ef`). -/
def visitW (deg : Bool) (tm : Q3 → Q3 → Mat4Q) (ef : Mat4Q → Q3) :
    Element → WState → Except PyErr (List WRec)
  | .part nm _defs owned, st =>
      match collectW owned [] with
      | .error e => .error e
      | .ok vals =>
          match getNumD vals ("tx"), getNumD vals ("ty"), getNumD vals ("tz"),
                getNumD vals ("rx"), getNumD vals ("ry"), getNumD vals ("rz") with
          | .ok ltx, .ok lty, .ok ltz, .ok lrx0, .ok lry0, .ok lrz0 =>
              let Tl := tm (ltx, lty, ltz) (toRadQ deg lrx0, toRadQ deg lry0, toRadQ deg lrz0)
              let Ta := st.T * Tl
              let e3 := ef Ta
              let ar : Q3 :=
                if deg then (toDegQ e3.1, toDegQ e3.2.1, toDegQ e3.2.2) else e3
              match compParentFields st.compParent with
              | .error e => .error e
              | .ok pf =>
                  let nmS := nm.getD ""
                  let rec0 : WRec :=
                    { name := toFloatPy (.str nmS)
                      tx := ltx, ty := lty, tz := ltz
                      rx := lrx0, ry := lry0, rz := lrz0
                      abs_tx := Ta 0 3, abs_ty := Ta 1 3, abs_tz := Ta 2 3
                      abs_rx := ar.1, abs_ry := ar.2.1, abs_rz := ar.2.2
                      parent_name := pf.1.map (fun c => toFloatPy (.str c))
                      parent_typeID := pf.2.map (fun c => toFloatPy (.str c))
                      onshape_url := (dget vals ("onshape_url")).map toFloatPy }
                  match visitWList deg tm ef owned { T := Ta, compParent := some nmS } with
                  | .error e => .error e
                  | .ok rest => .ok (rec0 :: rest)
          | .error e, _, _, _, _, _ => .error e
          | _, .error e, _, _, _, _ => .error e
          | _, _, .error e, _, _, _ => .error e
          | _, _, _, .error e, _, _ => .error e
          | _, _, _, _, .error e, _ => .error e
          | _, _, _, _, _, .error e => .error e
  | .attr _ owned, st => visitWList deg tm ef owned st
  | .lit _, _ => .ok []
  | .other owned, st => visitWList deg tm ef owned st

/-- `for_each` recursion of `visit` over owned elements (line 417): records
accumulate in document order; an exception aborts the whole traversal. -/
def visitWList (deg : Bool) (tm : Q3 → Q3 → Mat4Q) (ef : Mat4Q → Q3) :
    List Element → WState → Except PyErr (List WRec)
  | [], _ => .ok []
  | e :: es, st =>
      match visitW deg tm ef e st with
      | .error err => .error err
      | .ok r =>
          match visitWList deg tm ef es st with
          | .error err => .error err
          | .ok rs => .ok (r ++ rs)

end

/-- `components_from_part_world(root, angles_in_degrees, euler_axes)`
(line 298): seed state is the identity transform and no component ancestor
(lines 331-335). -/
def componentsFromPartWorld (deg : Bool) (tm : Q3 → Q3 → Mat4Q) (ef : Mat4Q → Q3)
    (root : Element) : Except PyErr (List WRec) :=
  visitW deg tm ef root { T := 1, compParent := none }

/-! ## The simple accumulator `components_from_part`
(geometry_api.py lines 197-241). -/

/-- A record emitted by `components_from_part` (lines 223-234). -/
structure PRec where
  name : String
  typeID : ℤ
  tx : ℚ
  ty : ℚ
  tz : ℚ
  rx : ℚ
  ry : ℚ
  rz : ℚ
  parent_name : Option String
  parent_typeID : Option ℤ
deriving DecidableEq, Repr

/-- `collect_attr` of `components_from_part` (lines 212-218): only literal
rationals and integers are collected; strings and non-literal expressions
are silently skipped. -/
def collectP : List Element → List (String × ℚ) → List (String × ℚ)
  | [], vs => vs
  | .attr nm owned :: rest, vs =>
      match owned.head? with
      | some (.lit (.rational v)) => collectP rest ((nm, v) :: vs)
      | some (.lit (.integer n)) => collectP rest ((nm, (n : ℚ)) :: vs)
      | _ => collectP rest vs
  | _ :: rest, vs => collectP rest vs

mutual

/-- `visit` of `components_from_part` (lines 206-238): a part node emits a
record exactly when `"typeID"` was collected; the emitted `(name, typeID)`
pair becomes the parent info passed to the node's descendants. -/
def cpVisit : Element → Option (String × ℤ) → List PRec
  | .part nm _defs owned, pinfo =>
      let vs := collectP owned []
      match dgetQ vs ("typeID") with
      | some tid =>
          let r : PRec :=
            { name := nm.getD ""
              typeID := truncQ tid
              tx := (dgetQ vs ("tx")).getD 0
              ty := (dgetQ vs ("ty")).getD 0
              tz := (dgetQ vs ("tz")).getD 0
              rx := (dgetQ vs ("rx")).getD 0
              ry := (dgetQ vs ("ry")).getD 0
              rz := (dgetQ vs ("rz")).getD 0
              parent_name := pinfo.map (·.1)
              parent_typeID := pinfo.map (·.2) }
          r :: cpVisitList owned (some (r.name, r.typeID))
      | none => cpVisitList owned pinfo
  | .attr _ owned, pinfo => cpVisitList owned pinfo
  | .lit _, _ => []
  | .other owned, pinfo => cpVisitList owned pinfo

/-- `for_each` recursion of `components_from_part.visit` (line 238). -/
def cpVisitList : List Element → Option (String × ℤ) → List PRec
  | [], _ => []
  | e :: es, pinfo => cpVisit e pinfo ++ cpVisitList es pinfo

end

/-- `components_from_part(root)` (line 240): the traversal starts with no
parent info. -/
def componentsFromPart (root : Element) : List PRec :=
  cpVisit root none

/-! ## The transform library (spec section 4.1). -/

/-- Modelled from the spec: `transformation_matrix(translation, eulerAngles)`
of the repository's `transformations` module (absent from src/) builds the
homogeneous transform as the extrinsic x-then-y-then-z rotation
`Rz * Ry * Rx` composed with translation in the last column (spec 4.1,
"rotate about x, then y, then z in the parent frame").  Sine and cosine are
abstract parameters, since they have no algebraic definition over `ℚ`. -/
def transformationMatrix (sinF cosF : ℚ → ℚ) (t r : Q3) : Mat4Q :=
  let sa := sinF r.1
  let ca := cosF r.1
  let sb := sinF r.2.1
  let cb := cosF r.2.1
  let sc := sinF r.2.2
  let cc := cosF r.2.2
  !![cc * cb, cc * sb * sa - sc * ca, cc * sb * ca + sc * sa, t.1;
     sc * cb, sc * sb * sa + cc * ca, sc * sb * ca - cc * sa, t.2.1;
     -sb, cb * sa, cb * ca, t.2.2;
     0, 0, 0, 1]

/-- Concrete instance used for evaluating witnesses: the rotation part
degenerated to the identity (sine ≡ 0, cosine ≡ 1), i.e. pure translation. -/
def tmTriv : Q3 → Q3 → Mat4Q := transformationMatrix (fun _ => 0) (fun _ => 1)

/-- Concrete Euler-extraction instance used for evaluating witnesses. -/
def efTriv : Mat4Q → Q3 := fun m => (m 2 1, m 0 2, m 1 0)

/-- The document tree of the repository's own test `tests/test_trafo.py`:
`rootelement` (a `Component`-defined part with no attributes) containing
`nx00001` (local pose all 1.0, `typeID = 0`) containing `tcs00001`
(local pose all 1.0, `typeID = 2`). -/
def attrQEl (nm : String) (v : ℚ) : Element := .attr nm [.lit (.rational v)]

/-- An integer-literal attribute element. -/
def attrIEl (nm : String) (v : ℤ) : Element := .attr nm [.lit (.integer v)]

/-- The six pose attributes, all set to 1.0. -/
def poseOnes : List Element :=
  [attrQEl ("tx") 1, attrQEl ("ty") 1, attrQEl ("tz") 1,
   attrQEl ("rx") 1, attrQEl ("ry") 1, attrQEl ("rz") 1]

/-- `tcs00001` of the test model. -/
def tcsEl : Element := .part (some "tcs00001") [] (poseOnes ++ [attrIEl ("typeID") 2])

/-- `nx00001` of the test model. -/
def nxEl : Element := .part (some "nx00001") [] (poseOnes ++ [attrIEl ("typeID") 0, tcsEl])

/-- `rootelement` of the test model. -/
def rootEl : Element := .part (some "rootelement") ["Component"] [nxEl]

deriving instance DecidableEq for Except


/-! ## The component tree model (geometry_api.py lines 9, 34-125). -/

/-- A `Component` object (lines 34-51).  Objects are identified by their
creation index into `Store.objs`; `parent`/`children` hold object ids so
that the Python object graph (with aliasing) is modelled faithfully. -/
structure CompObj where
  name : String
  typeID : ℤ
  translation : Q3
  rotation : Q3
  parent : Option ℕ
  children : List ℕ
deriving DecidableEq, Repr

/-- The module state: every `Component` object ever constructed (`objs`,
index = object id) plus the `_components` registry (line 9), an
insertion-ordered dict from names to object ids. -/
structure Store where
  objs : List CompObj
  reg : List (String × ℕ)
deriving DecidableEq, Repr

/-- The empty initial state. -/
def emptyStore : Store := { objs := [], reg := [] }

/-- Registry lookup `_components.get(name)` / `name in _components`. -/
def regLookup (reg : List (String × ℕ)) (k : String) : Option ℕ :=
  (reg.find? (fun p => p.1 == k)).map (·.2)

/-- Registry write `_components[k] = v`: Python dicts keep the original
position of an existing key and append new keys. -/
def regInsert (k : String) (v : ℕ) (reg : List (String × ℕ)) : List (String × ℕ) :=
  if (reg.find? (fun p => p.1 == k)).isSome then
    reg.map (fun p => if p.1 == k then (k, v) else p)
  else reg ++ [(k, v)]

/-- Object lookup by id. -/
def objAt (st : Store) (i : ℕ) : Option CompObj := st.objs.get? i

/-- The component registered under a name, if any. -/
def storeComp (st : Store) (nm : String) : Option CompObj :=
  (regLookup st.reg nm).bind (objAt st)

/-- Errors raised by the component tree model (section 7 of the spec;
the source raises `ValueError` with the corresponding messages). -/
inductive GeoErr where
  | duplicateName (n : String)
  | parentNotFound (n : String)
  | rootNotFound (n : String)
deriving DecidableEq, Repr

/-- Append a new object, linking it into its parent's `children`
(`Component.__init__`, lines 50-51). -/
def pushObj (st : Store) (obj : CompObj) : Store :=
  let newId := st.objs.length
  let objs1 :=
    match obj.parent with
    | none => st.objs
    | some pid =>
        match st.objs.get? pid with
        | none => st.objs
        | some pobj => st.objs.set pid { pobj with children := pobj.children ++ [newId] }
  { st with objs := objs1 ++ [obj] }

/-- `create_component(name, typeID, translation_data, rotation_data,
parent_name)` (lines 70-98).  Mirrors the source's order: duplicate check,
then parent resolution (note `if parent_name:` — Python truthiness, so an
empty-string parent name is treated like `None`), then construction and
registry insertion.  The returned store is the post-state (unchanged when an
error is raised, since both raises precede any mutation). -/
def createComponent (name : String) (typeID : ℤ) (tr rot : Q3)
    (parentName : Option String) (st : Store) : Store × Except GeoErr String :=
  if (regLookup st.reg name).isSome then (st, .error (.duplicateName name))
  else
    let pres : Except GeoErr (Option ℕ) :=
      match parentName with
      | none => .ok none
      | some p =>
          if p = "" then .ok none
          else
            match regLookup st.reg p with
            | some i => .ok (some i)
            | none => .error (.parentNotFound p)
    match pres with
    | .error e => (st, .error e)
    | .ok pid =>
        let newId := st.objs.length
        let st1 := pushObj st
          { name := name, typeID := typeID, translation := tr, rotation := rot,
            parent := pid, children := [] }
        ({ st1 with reg := regInsert name newId st.reg }, .ok name)

/-- `clear_components()` (lines 123-125): empties the registry dict; the
`Component` objects themselves (and their parent/children links) are
untouched. -/
def clearComponents (st : Store) : Store := { st with reg := [] }

/-! ## The textual codec: serialization (geometry_api.py lines 11-32, 53-68,
100-121). -/

/-- `n` spaces. -/
def spaces (n : ℕ) : String := String.mk (List.replicate n (' ' : Char))

/-- The fixed preamble `pu_geometry_pkg` (lines 11-32), verbatim. -/
def puGeometryPkg : String :=
  "\n\n    part def Onshape_Component \x7b\n        attribute onshape_url;\n    \x7d\n    part def Omniverse_Component \x7b\n        attribute ov_filepath;\n    \x7d\n\n    part def Component\x7b\n        attribute tx;\n        attribute ty;\n        attribute tz;\n\n        attribute rx;\n        attribute ry;\n        attribute rz;\n\n        attribute typeID;\n        part children: Component[0..*];\n    \x7d\n"

/-- `Component.to_textual(indent)` (lines 53-68), as a list of lines.  The
recursion over the object graph is driven by a fuel argument (the object
graph built by `create_component` is acyclic — every child id exceeds its
parent's — so any fuel at least `st.objs.length` is exact). -/
def toTextualLines (st : Store) : ℕ → ℕ → ℕ → List String
  | 0, _, _ => []
  | fuel + 1, cid, indent =>
      match st.objs.get? cid with
      | none => []
      | some c =>
          let ind := spaces indent
          [ind ++ "part " ++ c.name ++ ": Onshape_Component, Omniverse_Component subsets children \x7b",
           ind ++ "    attribute :>> tx=" ++ ratStr c.translation.1 ++ ";",
           ind ++ "    attribute :>> ty=" ++ ratStr c.translation.2.1 ++ ";",
           ind ++ "    attribute :>> tz=" ++ ratStr c.translation.2.2 ++ ";",
           ind ++ "    attribute :>> rx=" ++ ratStr c.rotation.1 ++ ";",
           ind ++ "    attribute :>> ry=" ++ ratStr c.rotation.2.1 ++ ";",
           ind ++ "    attribute :>> rz=" ++ ratStr c.rotation.2.2 ++ ";",
           ind ++ "    attribute :>> typeID = " ++ toString c.typeID ++ ";"]
          ++ (c.children.map (fun ch => toTextualLines st fuel ch (indent + 4))).flatten
          ++ [ind ++ "\x7d"]

/-- `get_sysmlv2_text(root_component_name, package_name)` (lines 100-121).
Note that the root component's own attributes (pose and typeID) are *not*
rendered — only the fixed preamble, the root part header and the children's
`to_textual` blocks. -/
def getSysmlv2Text (st : Store) (rootName pkg : String) : Except GeoErr String :=
  match regLookup st.reg rootName with
  | none => .error (.rootNotFound rootName)
  | some rid =>
      match st.objs.get? rid with
      | none => .error (.rootNotFound rootName)
      | some r =>
          let lines :=
            ["package " ++ pkg ++ " \x7b", puGeometryPkg, "",
             "     part def Context \x7b",
             "        part " ++ r.name ++ " :Component \x7b"]
            ++ (r.children.map (fun ch => toTextualLines st st.objs.length ch 12)).flatten
            ++ ["        \x7d", "    \x7d", "\x7d"]
          .ok (String.intercalate "\n" lines)

/-! ## The textual codec: deserialization `load_from_sysml`
(geometry_api.py lines 483-589). -/

/-- `_collect_attr` of `load_from_sysml` (lines 506-518): literal rationals
and integers pass through `float()`; everything that is an `Expression` —
which *includes* literal strings, making the `LiteralString` branch on line
517 unreachable — is evaluated by the provider and coerced with `float()`
(`ValueError` on a non-numeric string, `TypeError` on an unevaluable
expression). -/
def evalLLit : Lit → Except PyErr ℚ
  | .rational v => .ok v
  | .integer n => .ok (n : ℚ)
  | .expr (some v) => .ok v
  | .expr none => .error .typeError
  | .str s =>
      match parseRat s with
      | some q => .ok q
      | none => .error .valueError

/-- `collect_attrs` of `load_from_sysml` (lines 498-504). -/
def collectL : List Element → List (String × ℚ) → Except PyErr (List (String × ℚ))
  | [], vs => .ok vs
  | .attr nm owned :: rest, vs =>
      match owned.head? with
      | some (.lit l) =>
          match evalLLit l with
          | .error e => .error e
          | .ok q => collectL rest ((nm, q) :: vs)
      | _ => collectL rest vs
  | _ :: rest, vs => collectL rest vs

mutual

/-- `visit` of `load_from_sysml` (lines 520-580).  A part node materializes a
`Component` when it has a collected `typeID` attribute or a `Component` part
definition; `typeID` defaults to `len(_components) + 1`, the name defaults to
`Unnamed_{len(_components)}` (Python `or`, so an empty name also defaults),
and missing pose attributes default to 0.  An exception can escape `visitL`
only from this node's own attribute collection; exceptions raised while
visiting the children are caught by the `try/except` around the `for_each`
(line 577-580), see `visitLKids`. -/
def visitL : Element → Option ℕ → Store → Except (Store × PyErr) Store
  | .part nm defs owned, parentC, st =>
      match collectL owned [] with
      | .error e => .error (st, e)
      | .ok vals =>
          let hasT := (dgetQ vals ("typeID")).isSome
          let hasC := defs.contains ("Component")
          if hasT || hasC then
            let tid := truncQ ((dgetQ vals ("typeID")).getD ((st.reg.length : ℚ) + 1))
            let nmS :=
              match nm with
              | some s => if s = "" then "Unnamed_" ++ toString st.reg.length else s
              | none => "Unnamed_" ++ toString st.reg.length
            let newId := st.objs.length
            let st1 := pushObj st
              { name := nmS, typeID := tid,
                translation := ((dgetQ vals ("tx")).getD 0, (dgetQ vals ("ty")).getD 0,
                                (dgetQ vals ("tz")).getD 0),
                rotation := ((dgetQ vals ("rx")).getD 0, (dgetQ vals ("ry")).getD 0,
                             (dgetQ vals ("rz")).getD 0),
                parent := parentC, children := [] }
            let st2 := { st1 with reg := regInsert nmS newId st.reg }
            .ok (visitLKids owned (some newId) st2)
          else
            .ok (visitLKids owned parentC st)
  | .attr _ owned, parentC, st => .ok (visitLKids owned parentC st)
  | .lit _, _, st => .ok st
  | .other owned, parentC, st => .ok (visitLKids owned parentC st)

/-- The guarded `for_each` over owned elements (lines 576-580): the first
exception raised by a child's `visit` aborts the iteration over the remaining
siblings and is caught (and merely printed), keeping the store mutations made
so far. -/
def visitLKids : List Element → Option ℕ → Store → Store
  | [], _, st => st
  | e :: es, pc, st =>
      match visitL e pc st with
      | .ok st1 => visitLKids es pc st1
      | .error (st1, _) => st1

end

/-- The first component of `load_from_sysml`'s return value (lines 585-589):
the Python code returns the *list* `roots` itself (the empty list) when no
parentless component exists, and `roots[0]` otherwise. -/
inductive LoadRoot where
  | emptyRoots
  | comp (i : ℕ)
deriving DecidableEq, Repr

/-- `roots = [c for c in _components.values() if c.parent is None]`
(line 586): the parentless components in registry (= creation) order. -/
def loadRootIds (st : Store) : List ℕ :=
  st.reg.filterMap (fun p =>
    match st.objs.get? p.2 with
    | some o => if o.parent = none then some p.2 else none
    | none => none)

/-- `load_from_sysml(root, clear_existing)` (lines 483-589).  Only an
exception from the call root's own attribute collection escapes to the
caller (the recursive levels are each guarded by the `try/except`). -/
def loadFromSysml (root : Element) (clearExisting : Bool) (st0 : Store) :
    Except PyErr (LoadRoot × Store) :=
  let st := if clearExisting then { st0 with reg := [] } else st0
  match visitL root none st with
  | .error (_, e) => .error e
  | .ok st1 =>
      match loadRootIds st1 with
      | [] => .ok (.emptyRoots, st1)
      | r :: _ => .ok (.comp r, st1)

/-! ## Topmost-match document tree searches (geometry_api.py lines 244-294
and 434-481). -/

/-- `node.try_cast(syside.PartUsage)` succeeds. -/
def isPartEl : Element → Bool
  | .part _ _ _ => true
  | _ => false

/-- The part-definition names of a node (`node.part_definitions`). -/
def partDefs : Element → List String
  | .part _ d _ => d
  | _ => []

/-- `getattr(node, "name", None)`. -/
def elName : Element → Option String
  | .part n _ _ => n
  | .attr n _ => some n
  | _ => none

/-- `has_matching_def` and `matches_usage_name` combined (`here_matches`,
lines 254-274 — `is_part and has_matching_def(node) and
matches_usage_name(node)`). -/
def hereMatches (dn : String) (un : Option String) (el : Element) : Bool :=
  isPartEl el && (partDefs el).contains dn &&
    (match un with
     | none => true
     | some u => elName el == some u)

/-- `here_is_component` of `find_component_partusage` (lines 455-461):
`get_part_def` tries several singular attributes; in the embedding the
node's primary definition is the head of its definition list. -/
def hereIsComponent (el : Element) : Bool :=
  isPartEl el && ((partDefs el).head? == some ("Component"))

/-- The post-order decision step shared by `find_partusage_by_definition.dfs`
(lines 272-291): given the fold of the children's results, the node itself is
returned when it matches; otherwise the first child result propagates. -/
def fpbdStep (dn : String) (un : Option String) (el : Element)
    (folded : Option Element × Bool) : Option Element × Bool :=
  if hereMatches dn un el then (some el, true)
  else
    match folded.1 with
    | some f => (some f, true)
    | none => (none, folded.2)

/-- The decision step of `find_component_partusage.dfs` (lines 454-478):
the node is returned when it is a part *and its subtree* contains a
`Component`-defined part. -/
def fcpStep (el : Element) (folded : Option Element × Bool) : Option Element × Bool :=
  let subtreeHas := hereIsComponent el || folded.2
  if isPartEl el && subtreeHas then (some el, true)
  else
    match folded.1 with
    | some f => (some f, true)
    | none => (none, subtreeHas)

mutual

/-- `dfs` of `find_partusage_by_definition` (lines 272-291); returns
`(first match in subtree or none, subtree has a match)`. -/
def fpbdDfs (dn : String) (un : Option String) : Element → Option Element × Bool
  | .part nm defs owned => fpbdStep dn un (.part nm defs owned) (fpbdFold dn un owned)
  | .attr nm owned => fpbdStep dn un (.attr nm owned) (fpbdFold dn un owned)
  | .lit l => fpbdStep dn un (.lit l) (none, false)
  | .other owned => fpbdStep dn un (.other owned) (fpbdFold dn un owned)

/-- The child loop of `find_partusage_by_definition.dfs` (lines 279-283):
keeps the first non-null child result, accumulates "some child subtree has a
match". -/
def fpbdFold (dn : String) (un : Option String) : List Element → Option Element × Bool
  | [] => (none, false)
  | c :: cs =>
      let r := fpbdDfs dn un c
      let rs := fpbdFold dn un cs
      (r.1 <|> rs.1, (r.2 || r.1.isSome) || rs.2)

end

/-- `find_partusage_by_definition(elem, defining_part_name, usage_name)`
(lines 244-294). -/
def findPartusageByDefinition (el : Element) (dn : String) (un : Option String) :
    Option Element :=
  (fpbdDfs dn un el).1

mutual

/-- `dfs` of `find_component_partusage` (lines 454-478). -/
def fcpDfs : Element → Option Element × Bool
  | .part nm defs owned => fcpStep (.part nm defs owned) (fcpFold owned)
  | .attr nm owned => fcpStep (.attr nm owned) (fcpFold owned)
  | .lit l => fcpStep (.lit l) (none, false)
  | .other owned => fcpStep (.other owned) (fcpFold owned)

/-- The child loop of `find_component_partusage.dfs` (lines 466-470). -/
def fcpFold : List Element → Option Element × Bool
  | [] => (none, false)
  | c :: cs =>
      let r := fcpDfs c
      let rs := fcpFold cs
      (r.1 <|> rs.1, (r.2 || r.1.isSome) || rs.2)

end

/-- `find_component_partusage(elem)` (lines 434-481). -/
def findComponentPartusage (el : Element) : Option Element :=
  (fcpDfs el).1

mutual

/-- All nodes of an element's subtree, in document (pre-)order. -/
def nodesOf : Element → List Element
  | .part nm defs owned => .part nm defs owned :: nodesOfList owned
  | .attr nm owned => .attr nm owned :: nodesOfList owned
  | .lit l => [.lit l]
  | .other owned => .other owned :: nodesOfList owned

/-- All nodes of a forest, in document order. -/
def nodesOfList : List Element → List Element
  | [] => []
  | e :: es => nodesOf e ++ nodesOfList es

end

/-! ## The Document Tree Provider's parser, modelled from the spec.

Modelled from the spec: the external parser (syside's `load_model`) is a
collaborator absent from src/.  Section 6 of the spec fixes the textual
grammar `package NAME { <type defs> part NAME [: TypeRefs] [subsets
children] { attribute :>> NAME = VALUE; ... } }`; the serialized text is
line-structured, so the model parses line by line into `Element` trees:
`part`-with-block lines become part usages (with their declared definition
names, multiplicity suffixes stripped), `part def`/`package` blocks become
plain (non-part) nodes, and attribute lines become attribute usages holding
a numeric literal. -/

/-- The two brace characters (written via code points). -/
def openBr : Char := Char.ofNat 123

/-- Closing brace. -/
def closeBr : Char := Char.ofNat 125

/-- Strip an exact leading character sequence. -/
def dropLit : List Char → List Char → Option (List Char)
  | [], cs => some cs
  | _ :: _, [] => none
  | l :: ls, c :: cs => if c == l then dropLit ls cs else none

/-- Strip an exact trailing character sequence. -/
def dropSuffix (suf cs : List Char) : Option (List Char) :=
  (dropLit suf.reverse cs.reverse).map List.reverse

/-- Keep everything before the first opening bracket (strips a
multiplicity suffix such as `[0..*]` from a definition reference). -/
def stripBracket (cs : List Char) : List Char :=
  match splitChars ('[' : Char) cs with
  | s :: _ => s
  | [] => []

/-- One token per nonempty line of the textual notation. -/
inductive Tok where
  | openPkg
  | openDef
  | openPart (name : String) (defs : List String)
  | leafPart (name : String) (defs : List String)
  | attrVal (name : String) (l : Lit)
  | attrDecl (name : String)
  | closeB
deriving DecidableEq, Repr

/-- Parse a rendered numeric literal into a `Lit` (integers become
`LiteralInteger`s, fractional forms `LiteralRational`s). -/
def litOfChars (v0 : List Char) : Option Lit :=
  let v := trimChars v0
  match parseRat (String.mk v) with
  | none => none
  | some q =>
      if (splitChars ('.' : Char) v).length > 1 || (splitChars ('/' : Char) v).length > 1 then
        some (.rational q)
      else some (.integer q.num)

/-- Parse the head of a part declaration: `NAME [: def, def [subsets
children]]`. -/
def partHead (cs : List Char) : Option (String × List String) :=
  match splitChars (':' : Char) cs with
  | [n] => some (String.mk (trimChars n), [])
  | [n, d] =>
      let d1 := trimChars d
      let d2 :=
        match dropSuffix ("subsets children").data d1 with
        | some x => trimChars x
        | none => d1
      let defs := (splitChars (',' : Char) d2).map
        (fun x => String.mk (stripBracket (trimChars x)))
      some (String.mk (trimChars n), defs.filter (fun s => s ≠ ""))
  | _ => none

/-- Tokenize one (trimmed, nonempty) line. -/
def tokOfLine (cs0 : List Char) : Option Tok :=
  let cs := trimChars cs0
  if cs == [closeBr] then some .closeB
  else if cs.getLast? == some openBr then
    let core := trimChars cs.dropLast
    match dropLit ("package ").data core with
    | some _ => some .openPkg
    | none =>
        match dropLit ("part def ").data core with
        | some _ => some .openDef
        | none =>
            match dropLit ("part ").data core with
            | some rest => (partHead rest).map (fun p => .openPart p.1 p.2)
            | none => none
  else if cs.getLast? == some (';' : Char) then
    let core := trimChars cs.dropLast
    match dropLit ("attribute ").data core with
    | some rest =>
        match dropLit (":>>").data (trimChars rest) with
        | some rest2 =>
            match splitChars ('=' : Char) rest2 with
            | [n, v] => (litOfChars v).map (fun l => .attrVal (String.mk (trimChars n)) l)
            | _ => none
        | none => some (.attrDecl (String.mk (trimChars rest)))
    | none =>
        match dropLit ("part ").data core with
        | some rest => (partHead rest).map (fun p => .leafPart p.1 p.2)
        | none => none
  else none

/-- Build the element forest from the token stream (fuel-driven; any fuel
above the token count is exact). -/
def buildEls : ℕ → List Tok → Option (List Element × List Tok)
  | 0, _ => none
  | _ + 1, [] => some ([], [])
  | fuel + 1, t :: rest =>
      match t with
      | .closeB => some ([], rest)
      | .openPkg =>
          match buildEls fuel rest with
          | some (kids, rest1) =>
              match buildEls fuel rest1 with
              | some (es, rest2) => some (.other kids :: es, rest2)
              | none => none
          | none => none
      | .openDef =>
          match buildEls fuel rest with
          | some (kids, rest1) =>
              match buildEls fuel rest1 with
              | some (es, rest2) => some (.other kids :: es, rest2)
              | none => none
          | none => none
      | .openPart n d =>
          match buildEls fuel rest with
          | some (kids, rest1) =>
              match buildEls fuel rest1 with
              | some (es, rest2) => some (.part (some n) d kids :: es, rest2)
              | none => none
          | none => none
      | .leafPart n d =>
          match buildEls fuel rest with
          | some (es, rest1) => some (.part (some n) d [] :: es, rest1)
          | none => none
      | .attrVal n l =>
          match buildEls fuel rest with
          | some (es, rest1) => some (.attr n [.lit l] :: es, rest1)
          | none => none
      | .attrDecl n =>
          match buildEls fuel rest with
          | some (es, rest1) => some (.attr n [] :: es, rest1)
          | none => none

/-- Modelled from the spec: parse the textual notation into a document tree
(one top-level `package` element). -/
def parseDoc (s : String) : Option Element :=
  let ls := ((splitChars ('\n' : Char) s.data).map trimChars).filter (fun l => l ≠ [])
  match ls.mapM tokOfLine with
  | none => none
  | some toks =>
      match buildEls (toks.length + 1) toks with
      | some ([el], []) => some el
      | _ => none

/-! ## The round-trip pipeline at a concrete input (for claim C3). -/

/-- A two-component tree: root `r` (typeID 7, nonzero pose) with one child
`c` (typeID 9, pose preserved through the codec). -/
def c3Store : Store :=
  let s1 := (createComponent ("r") 7 (1, 2, 3) (4, 5, 6) none emptyStore).1
  (createComponent ("c") 9 (1, 2, 3) (4, 5, 6) (some ("r")) s1).1

/-- The serialized text of `c3Store` from root `r`. -/
def c3Text : String :=
  match getSysmlv2Text c3Store ("r") ("MyStructure") with
  | .ok s => s
  | .error _ => ""

/-- The parsed document tree of the serialized text. -/
def c3Doc : Option Element := parseDoc c3Text

/-- The structural root located inside the parsed document, as the system's
own callers do (see tests/test_geometry_api.py): the topmost `Component`-
defined part usage named `r`. -/
def c3Found : Option Element :=
  c3Doc.bind (fun d => findPartusageByDefinition d ("Component") (some ("r")))

/-- The store rebuilt by `load_from_sysml` from the located root. -/
def c3Loaded : Option Store :=
  c3Found.bind (fun f =>
    match loadFromSysml f true emptyStore with
    | .ok r => some r.2
    | .error _ => none)


/-! ## Claim theorems. -/

/-- C1: the claim says every emitted record's `parent_name`/`parent_typeID`
equal the full name and the typeID of the nearest emitting ancestor, for
both accumulator variants.  `components_from_part` does behave that way, but
`components_from_part_world` stores only the ancestor's *name string* as
`comp_parent` (line 412) and then indexes it, so on the repository's own
test model (tests/test_trafo.py, which asserts `parent_name == "nx00001"`
and `parent_typeID == 0`) the grandchild record carries the first and second
*characters* `"n"`/`"x"` of the child's name instead: the code contradicts
its own test and docstring. -/
theorem c1_parent_link_code_bug :
    ((componentsFromPartWorld false tmTriv efTriv rootEl).map
       (List.map (fun r => (r.name, r.parent_name, r.parent_typeID))) =
     .ok [(.str ("rootelement"), none, none),
          (.str ("nx00001"), some (.str ("r")), some (.str ("o"))),
          (.str ("tcs00001"), some (.str ("n")), some (.str ("x")))]) ∧
    ((componentsFromPart rootEl).map (fun r => (r.name, r.parent_name, r.parent_typeID)) =
     [("nx00001", none, none), ("tcs00001", some ("nx00001"), some (0 : ℤ))]) := by
  decide

/-- C2: the claim says both accumulator variants emit exactly for part nodes
with a numeric typeID attribute.  `components_from_part` does;
`components_from_part_world` emits for *every* part usage (the `if True:`
on line 379; the typeID is not even inspected), contradicting its own
docstring ("Only nodes with numeric typeID are emitted") and the test
tests/test_trafo.py (which expects exactly `["nx00001", "tcs00001"]`):
on the test model the world variant also emits `rootelement`, which has no
typeID attribute. -/
theorem c2_emission_policy_code_bug :
    ((componentsFromPart rootEl).map (fun r => r.name) = ["nx00001", "tcs00001"]) ∧
    ((componentsFromPartWorld false tmTriv efTriv rootEl).map (List.map (fun r => r.name)) =
      .ok [.str ("rootelement"), .str ("nx00001"), .str ("tcs00001")]) := by
  decide

/-- C3: the claim says deserializing the serialized text reconstructs a tree
isomorphic to the original, including the root's own typeID and local pose.
But `get_sysmlv2_text` (lines 109-121) renders only the root part's header
and its children's blocks — never the root's own attributes — so
`load_from_sysml` (docstring: "Inverse of get_sysmlv2_text()") rebuilds the
root with the default typeID `len(_components) + 1 = 1` and zero pose.
Concretely: serializing the two-component store (root `r` with typeID 7 and
pose (1,2,3)/(4,5,6), child `c` with typeID 9), parsing the text, locating
the root part and loading it back yields `r` with typeID 1 and zero pose,
while the child `c` round-trips intact. -/
theorem c3_roundtrip_code_bug :
    ((storeComp c3Store ("r")).map (fun o => (o.typeID, o.translation, o.rotation)) =
      some (7, (1, 2, 3), (4, 5, 6))) ∧
    ((c3Loaded.bind (fun st => (storeComp st ("r")).map
        (fun o => (o.typeID, o.translation, o.rotation)))) =
      some (1, (0, 0, 0), (0, 0, 0))) ∧
    ((c3Loaded.bind (fun st => (storeComp st ("c")).map
        (fun o => (o.typeID, o.translation, o.rotation, o.parent)))) =
      some (9, (1, 2, 3), (4, 5, 6), some 0)) := by
  refine ⟨by decide, by decide, by decide⟩

/-- C9: `clear_components` empties the registry, is idempotent, leaves the
already-created `Component` objects (and hence their parent/children links)
untouched, and a subsequent `create_component` with any previously-used name
does not raise a duplicate-name error. -/
theorem c9_clear_idempotent (st : Store) (name : String) (tid : ℤ) (tr rot : Q3) :
    (clearComponents st).reg = [] ∧
    clearComponents (clearComponents st) = clearComponents st ∧
    (createComponent name tid tr rot none (clearComponents st)).2 = .ok name ∧
    (clearComponents st).objs = st.objs := by
  refine ⟨rfl, rfl, ?_, rfl⟩
  simp [createComponent, clearComponents, regLookup]

/-- Registry insertion of a fresh key appends. -/
theorem regInsert_fresh (k : String) (v : ℕ) (reg : List (String × ℕ))
    (h : regLookup reg k = none) : regInsert k v reg = reg ++ [(k, v)] := by
  unfold regInsert
  unfold regLookup at h
  cases hf : reg.find? (fun p => p.1 == k) with
  | none => simp [hf]
  | some x => rw [hf] at h; simp at h

/-- C5 counterexample: the claim says a parent-not-found error is raised
*iff* a parent name is given that is absent from the registry.  But
`create_component` tests the parent name with Python truthiness
(`if parent_name:`), so the given-but-absent parent name `""` raises
nothing: the component is silently created as a root. -/
theorem c5_counterexample :
    regLookup emptyStore.reg ("") = none ∧
    (createComponent ("a") 1 (0, 0, 0) (0, 0, 0) (some ("")) emptyStore).2 = .ok ("a") ∧
    (objAt (createComponent ("a") 1 (0, 0, 0) (0, 0, 0) (some ("")) emptyStore).1 0).map
      (fun o => o.parent) = some none := by
  decide


/-- `create_component` when the name is already registered: error, store
untouched. -/
theorem createComponent_dup (name : String) (tid : ℤ) (tr rot : Q3)
    (pn : Option String) (st : Store) (j : ℕ)
    (h : regLookup st.reg name = some j) :
    createComponent name tid tr rot pn st = (st, .error (.duplicateName name)) := by
  simp [createComponent, h]

/-- `create_component` with a free name and a falsy parent name: a root
component is appended and registered. -/
theorem createComponent_root (name : String) (tid : ℤ) (tr rot : Q3)
    (pn : Option String) (st : Store)
    (h : regLookup st.reg name = none) (hpn : pn = none ∨ pn = some "") :
    createComponent name tid tr rot pn st =
      ({ objs := st.objs ++ [⟨name, tid, tr, rot, none, []⟩],
         reg := st.reg ++ [(name, st.objs.length)] }, .ok name) := by
  rcases hpn with rfl | rfl <;>
    simp [createComponent, h, pushObj, regInsert_fresh _ _ _ h]

/-- `create_component` with a free name and a non-empty absent parent name:
error, store untouched. -/
theorem createComponent_missingParent (name : String) (tid : ℤ) (tr rot : Q3)
    (p : String) (st : Store)
    (h : regLookup st.reg name = none) (hp : ¬p = "") (hlk : regLookup st.reg p = none) :
    createComponent name tid tr rot (some p) st = (st, .error (.parentNotFound p)) := by
  simp [createComponent, h, hp, hlk]

/-- `create_component` with a free name and a resolvable parent: the new
component is appended to the parent's children and registered. -/
theorem createComponent_withParent (name : String) (tid : ℤ) (tr rot : Q3)
    (p : String) (st : Store) (i : ℕ) (pobj : CompObj)
    (h : regLookup st.reg name = none) (hp : ¬p = "")
    (hlk : regLookup st.reg p = some i) (hobj : objAt st i = some pobj) :
    createComponent name tid tr rot (some p) st =
      ({ objs := (st.objs.set i { pobj with children := pobj.children ++ [st.objs.length] })
           ++ [⟨name, tid, tr, rot, some i, []⟩],
         reg := st.reg ++ [(name, st.objs.length)] }, .ok name) := by
  unfold objAt at hobj
  rw [List.get?_eq_getElem?] at hobj
  simp [createComponent, h, hp, hlk, pushObj, hobj, regInsert_fresh _ _ _ h]

/-- `create_component` with a resolvable parent id that is dangling in
`objs` (impossible for stores built by the API, but the model covers it). -/
theorem createComponent_dangling (name : String) (tid : ℤ) (tr rot : Q3)
    (p : String) (st : Store) (i : ℕ)
    (h : regLookup st.reg name = none) (hp : ¬p = "")
    (hlk : regLookup st.reg p = some i) (hobj : objAt st i = none) :
    createComponent name tid tr rot (some p) st =
      ({ objs := st.objs ++ [⟨name, tid, tr, rot, some i, []⟩],
         reg := st.reg ++ [(name, st.objs.length)] }, .ok name) := by
  unfold objAt at hobj
  rw [List.get?_eq_getElem?] at hobj
  simp [createComponent, h, hp, hlk, pushObj, hobj, regInsert_fresh _ _ _ h]

/-- C5 (amended): `create_component` raises a duplicate-name error iff the
name is already registered (this check precedes everything else, so it wins
over a missing parent); it raises a parent-not-found error iff the name is
free and a *non-empty* parent name is given that is absent from the registry
— Python truthiness (`if parent_name:`) treats an empty parent name like no
parent at all; on either error the store is unchanged (no partial
insertion); on success with no parent (or an empty parent name) the
component is registered as a root, and on success with a resolvable parent
it is appended to that parent's children; either way the new object is
appended to the store and the registry maps the name to it. -/
theorem c5_create_amended (name : String) (tid : ℤ) (tr rot : Q3)
    (pn : Option String) (st : Store) :
    ((createComponent name tid tr rot pn st).2 = .error (.duplicateName name) ↔
      (regLookup st.reg name).isSome = true) ∧
    (∀ p, ((createComponent name tid tr rot pn st).2 = .error (.parentNotFound p) ↔
      (regLookup st.reg name = none ∧ pn = some p ∧ ¬p = "" ∧ regLookup st.reg p = none))) ∧
    (∀ e, (createComponent name tid tr rot pn st).2 = .error e →
      (createComponent name tid tr rot pn st).1 = st) ∧
    (regLookup st.reg name = none → (pn = none ∨ pn = some "") →
      createComponent name tid tr rot pn st =
        ({ objs := st.objs ++ [⟨name, tid, tr, rot, none, []⟩],
           reg := st.reg ++ [(name, st.objs.length)] }, .ok name)) ∧
    (∀ p i pobj, regLookup st.reg name = none → pn = some p → ¬p = "" →
      regLookup st.reg p = some i → objAt st i = some pobj →
      createComponent name tid tr rot pn st =
        ({ objs := (st.objs.set i { pobj with children := pobj.children ++ [st.objs.length] })
             ++ [⟨name, tid, tr, rot, some i, []⟩],
           reg := st.reg ++ [(name, st.objs.length)] }, .ok name)) := by
  cases hdup : regLookup st.reg name with
  | some j =>
      rw [createComponent_dup name tid tr rot pn st j hdup]
      refine ⟨by simp, fun p => ?_, fun e _ => rfl, fun hn _ => Option.noConfusion hn,
              fun p i pobj hn _ _ _ _ => Option.noConfusion hn⟩
      constructor
      · intro he; exact absurd he (by simp)
      · rintro ⟨hn, -⟩; exact Option.noConfusion hn
  | none =>
      cases pn with
      | none =>
          rw [createComponent_root name tid tr rot none st hdup (Or.inl rfl)]
          refine ⟨by simp, fun p => by simp, fun e he => by simp at he,
                  fun _ _ => rfl, fun p i pobj _ hps _ _ _ => Option.noConfusion hps⟩
      | some p0 =>
          by_cases hp0 : p0 = ""
          · subst hp0
            rw [createComponent_root name tid tr rot (some "") st hdup (Or.inr rfl)]
            refine ⟨by simp, fun p => ?_, fun e he => by simp at he, fun _ _ => rfl,
                    fun p i pobj _ hps hpne _ _ => ?_⟩
            · constructor
              · intro he; exact absurd he (by simp)
              · rintro ⟨-, hps, hpne, -⟩
                injection hps with hpe
                exact absurd hpe.symm hpne
            · injection hps with hpe
              subst hpe
              exact absurd rfl hpne
          · cases hlk : regLookup st.reg p0 with
            | none =>
                rw [createComponent_missingParent name tid tr rot p0 st hdup hp0 hlk]
                refine ⟨by simp, fun p => ?_, fun e _ => rfl, fun _ hor => ?_,
                        fun p i pobj _ hps _ hsl _ => ?_⟩
                · constructor
                  · intro he
                    have hpe : p0 = p := by simpa using he
                    subst hpe
                    exact ⟨rfl, rfl, hp0, hlk⟩
                  · rintro ⟨-, hpp, -, -⟩
                    injection hpp with hpe
                    subst hpe
                    rfl
                · rcases hor with h | h
                  · exact Option.noConfusion h
                  · injection h with hpe; exact absurd hpe hp0
                · injection hps with hpe
                  subst hpe
                  rw [hlk] at hsl
                  exact Option.noConfusion hsl
            | some i0 =>
                cases hobj : objAt st i0 with
                | some pobj0 =>
                    rw [createComponent_withParent name tid tr rot p0 st i0 pobj0 hdup hp0 hlk hobj]
                    refine ⟨by simp, fun p => ?_, fun e he => by simp at he, fun _ hor => ?_,
                            fun p i pobj _ hps _ hsl hobj2 => ?_⟩
                    · constructor
                      · intro he; exact absurd he (by simp)
                      · rintro ⟨-, hpp, -, hlp⟩
                        injection hpp with hpe
                        subst hpe
                        rw [hlk] at hlp
                        exact Option.noConfusion hlp
                    · rcases hor with h | h
                      · exact Option.noConfusion h
                      · injection h with hpe; exact absurd hpe hp0
                    · injection hps with hpe
                      subst hpe
                      rw [hlk] at hsl
                      injection hsl with hii
                      subst hii
                      rw [hobj] at hobj2
                      injection hobj2 with hoo
                      subst hoo
                      rfl
                | none =>
                    rw [createComponent_dangling name tid tr rot p0 st i0 hdup hp0 hlk hobj]
                    refine ⟨by simp, fun p => ?_, fun e he => by simp at he, fun _ hor => ?_,
                            fun p i pobj _ hps _ hsl hobj2 => ?_⟩
                    · constructor
                      · intro he; exact absurd he (by simp)
                      · rintro ⟨-, hpp, -, hlp⟩
                        injection hpp with hpe
                        subst hpe
                        rw [hlk] at hlp
                        exact Option.noConfusion hlp
                    · rcases hor with h | h
                      · exact Option.noConfusion h
                      · injection h with hpe; exact absurd hpe hp0
                    · injection hps with hpe
                      subst hpe
                      rw [hlk] at hsl
                      injection hsl with hii
                      subst hii
                      rw [hobj] at hobj2
                      exact Option.noConfusion hobj2

/-- Witness for C5 (amended), exercising the success-with-parent clause at a
concrete store: creating `c` under the registered root `r` appends the new
object to `r`'s children and registers it. -/
theorem c5_create_amended_witness :
    createComponent ("c") 9 (1, 2, 3) (4, 5, 6) (some ("r"))
        { objs := [⟨"r", 7, (1, 2, 3), (4, 5, 6), none, []⟩], reg := [("r", 0)] } =
      ({ objs := [⟨"r", 7, (1, 2, 3), (4, 5, 6), none, [1]⟩,
                  ⟨"c", 9, (1, 2, 3), (4, 5, 6), some 0, []⟩],
         reg := [("r", 0), ("c", 1)] }, .ok ("c")) := by
  have h := (c5_create_amended ("c") 9 (1, 2, 3) (4, 5, 6) (some ("r"))
      { objs := [⟨"r", 7, (1, 2, 3), (4, 5, 6), none, []⟩], reg := [("r", 0)] }).2.2.2.2
      ("r") 0 ⟨"r", 7, (1, 2, 3), (4, 5, 6), none, []⟩ (by decide) rfl (by decide)
      (by decide) (by decide)
  rw [h]
  decide

/-! ## Claim C10: the shape of `load_from_sysml`'s return value. -/

/-- No attribute element named `k` among these elements. -/
def noAttrNamed (k : String) (es : List Element) : Bool :=
  es.all (fun e =>
    match e with
    | .attr nm _ => !(nm == k)
    | _ => true)

mutual

/-- No part usage in the subtree carries a `typeID` attribute or a
`Component` definition (so `load_from_sysml` materializes nothing). -/
def noQualEl : Element → Bool
  | .part _ defs owned =>
      !(defs.contains ("Component")) && noAttrNamed ("typeID") owned && noQualList owned
  | .attr _ owned => noQualList owned
  | .lit _ => true
  | .other owned => noQualList owned

/-- `noQualEl` over a forest. -/
def noQualList : List Element → Bool
  | [] => true
  | e :: es => noQualEl e && noQualList es

end

/-- Attribute collection cannot invent a key that no attribute element
carries. -/
theorem collectL_no_key (k : String) :
    ∀ (owned : List Element) (acc : List (String × ℚ)),
      noAttrNamed k owned = true → dgetQ acc k = none →
      ∀ vs, collectL owned acc = .ok vs → dgetQ vs k = none := by
  intro owned
  induction owned with
  | nil =>
      intro acc _ hacc vs hv
      cases hv
      exact hacc
  | cons e rest ih =>
      intro acc hna hacc vs hv
      have hna2 := hna
      unfold noAttrNamed at hna2
      rw [List.all_cons, Bool.and_eq_true] at hna2
      have hrest : noAttrNamed k rest = true := hna2.2
      cases e with
      | attr nm owned2 =>
          have h1 : ¬nm = k := by
            have hh := hna2.1
            simp at hh
            exact hh
          cases owned2 with
          | nil =>
              simp only [collectL, List.head?] at hv
              exact ih acc hrest hacc vs hv
          | cons e2 tail =>
              cases e2 with
              | lit l =>
                  simp only [collectL, List.head?] at hv
                  cases hel : evalLLit l with
                  | error er => rw [hel] at hv; cases hv
                  | ok q =>
                      rw [hel] at hv
                      refine ih ((nm, q) :: acc) hrest ?_ vs hv
                      have hfind : ((nm, q) :: acc).find? (fun p => p.1 == k) =
                          acc.find? (fun p => p.1 == k) :=
                        List.find?_cons_of_neg _ (by simp [h1])
                      unfold dgetQ at hacc ⊢
                      rw [hfind]
                      exact hacc
              | part a b c =>
                  simp only [collectL, List.head?] at hv
                  exact ih acc hrest hacc vs hv
              | attr a b =>
                  simp only [collectL, List.head?] at hv
                  exact ih acc hrest hacc vs hv
              | other a =>
                  simp only [collectL, List.head?] at hv
                  exact ih acc hrest hacc vs hv
      | part a b c =>
          simp only [collectL] at hv
          exact ih acc hrest hacc vs hv
      | lit l =>
          simp only [collectL] at hv
          exact ih acc hrest hacc vs hv
      | other a =>
          simp only [collectL] at hv
          exact ih acc hrest hacc vs hv

/-- When no subtree part qualifies, `load_from_sysml`'s visitor materializes
nothing: it returns the store unchanged, or raises leaving it unchanged
(joint strong induction on the element/forest size). -/
theorem visitL_noQual (n : ℕ) :
    (∀ el : Element, sizeOf el ≤ n → ∀ pc st, noQualEl el = true →
      visitL el pc st = .ok st ∨ ∃ e, visitL el pc st = .error (st, e)) ∧
    (∀ es : List Element, sizeOf es ≤ n → ∀ pc st, noQualList es = true →
      visitLKids es pc st = st) := by
  induction n with
  | zero =>
      constructor
      · intro el hle
        exact absurd hle (by cases el <;> simp)
      · intro es hle
        exact absurd hle (by cases es <;> simp)
  | succ n ih =>
      constructor
      · intro el hle pc st hq
        cases el with
        | lit l => left; rfl
        | attr nm owned =>
            left
            simp only [visitL]
            rw [ih.2 owned (by simp at hle; omega) pc st (by simpa [noQualEl] using hq)]
        | other owned =>
            left
            simp only [visitL]
            rw [ih.2 owned (by simp at hle; omega) pc st (by simpa [noQualEl] using hq)]
        | part nm defs owned =>
            have hq' := hq
            unfold noQualEl at hq'
            rw [Bool.and_eq_true, Bool.and_eq_true] at hq'
            cases hc : collectL owned [] with
            | error e =>
                right
                exact ⟨e, by simp only [visitL, hc]⟩
            | ok vals =>
                have hT : dgetQ vals ("typeID") = none :=
                  collectL_no_key ("typeID") owned [] hq'.1.2 rfl vals hc
                have hC : defs.contains ("Component") = false := by
                  have := hq'.1.1
                  simpa using this
                left
                simp only [visitL, hc, hT, hC]
                rw [ih.2 owned (by simp at hle; omega) pc st hq'.2]
                simp
      · intro es hle pc st hq
        cases es with
        | nil => rfl
        | cons e rest =>
            have hq' := hq
            unfold noQualList at hq'
            rw [Bool.and_eq_true] at hq'
            have h1 := ih.1 e (by simp at hle; omega) pc st hq'.1
            rcases h1 with h | ⟨er, h⟩
            · simp only [visitLKids, h]
              exact ih.2 rest (by simp at hle; omega) pc st hq'.2
            · simp only [visitLKids, h]

/-- C10: at the public interface, when the document materializes no
components (no part carries a typeID attribute or a Component definition),
`load_from_sysml` returns the Python empty *list* as first element of the
pair (modelled by `LoadRoot.emptyRoots`) — never `None` — and whenever at
least one parentless component exists, the first element is the
earliest-created parentless component (`roots[0]` in registry order). -/
theorem c10_load_root_return (root : Element) (st0 : Store) :
    (noQualEl root = true →
      loadFromSysml root true st0 = .ok (.emptyRoots, { st0 with reg := [] }) ∨
      ∃ e, loadFromSysml root true st0 = .error e) ∧
    (∀ r st1, loadFromSysml root true st0 = .ok (r, st1) →
      ((loadRootIds st1 = [] → r = .emptyRoots) ∧
       (∀ i rest, loadRootIds st1 = i :: rest → r = .comp i))) := by
  constructor
  · intro hq
    have h := (visitL_noQual (sizeOf root)).1 root (le_refl _) none { st0 with reg := [] } hq
    rcases h with h | ⟨e, h⟩
    · left
      simp only [loadFromSysml, if_true, h]
      rfl
    · right
      exact ⟨e, by simp only [loadFromSysml, if_true, h]⟩
  · intro r st1 hok
    simp only [loadFromSysml, if_true] at hok
    cases hv : visitL root none { st0 with reg := [] } with
    | error pe =>
        obtain ⟨st', e⟩ := pe
        rw [hv] at hok
        simp at hok
    | ok st' =>
        rw [hv] at hok
        have hok2 : (match loadRootIds st' with
            | [] => Except.ok (LoadRoot.emptyRoots, st')
            | r :: _ => Except.ok (LoadRoot.comp r, st')) = Except.ok (r, st1) := hok
        clear hok
        cases hri : loadRootIds st' with
        | nil =>
            rw [hri] at hok2
            injection hok2 with h
            injection h with h1 h2
            subst h1
            subst h2
            constructor
            · intro _; rfl
            · intro i rest hx
              rw [hri] at hx
              cases hx
        | cons i0 rest0 =>
            rw [hri] at hok2
            injection hok2 with h
            injection h with h1 h2
            subst h1
            subst h2
            constructor
            · intro hx
              rw [hri] at hx
              cases hx
            · intro i rest hx
              rw [hri] at hx
              injection hx with h3 h4
              rw [h3]

/-- A document with a part that has neither a typeID attribute nor a
`Component` definition. -/
def c10WitNoQual : Element := .other [.part (some ("p")) [] [attrQEl ("tx") 1]]

/-- A document whose single part is `Component`-defined. -/
def c10WitQual : Element := .part (some ("p")) ["Component"] [attrQEl ("tx") 1]

/-- The store `load_from_sysml` builds from `c10WitQual`. -/
def c10WitStore : Store :=
  { objs := [⟨"p", 1, (1, 0, 0), (0, 0, 0), none, []⟩], reg := [("p", 0)] }

/-- Witness for C10 at concrete inputs: a document with no qualifying part
yields the empty list (never `None`), and a document with one parentless
component yields that component. -/
theorem c10_load_root_return_witness :
    (loadFromSysml c10WitNoQual true emptyStore =
        .ok (.emptyRoots, { emptyStore with reg := [] }) ∨
      ∃ e, loadFromSysml c10WitNoQual true emptyStore = .error e) ∧
    LoadRoot.comp 0 = LoadRoot.comp 0 :=
  ⟨(c10_load_root_return c10WitNoQual emptyStore).1 (by decide),
   ((c10_load_root_return c10WitQual emptyStore).2 (.comp 0) c10WitStore (by decide)).2
     0 [] (by decide)⟩

/-! ## Claim C4: specification of the two topmost-match searches. -/

/-- Subtree nodes of an element, unfolded. -/
theorem nodesOf_eq (el : Element) :
    nodesOf el = el :: nodesOfList (childrenOf el) := by
  cases el <;> rfl

/-- `fpbdDfs` factored through its decision step. -/
theorem fpbdDfs_eq (dn : String) (un : Option String) (el : Element) :
    fpbdDfs dn un el = fpbdStep dn un el (fpbdFold dn un (childrenOf el)) := by
  cases el <;> rfl

/-- Joint specification of `find_partusage_by_definition`'s recursion, by
strong induction on size: the boolean tracks existence of a matching node in
the subtree, a null result is equivalent to "no match", and a non-null
result is a matching subtree node. -/
theorem fpbdSpec (dn : String) (un : Option String) (n : ℕ) :
    (∀ el : Element, sizeOf el ≤ n →
      ((fpbdDfs dn un el).2 = true ↔ ∃ m ∈ nodesOf el, hereMatches dn un m = true) ∧
      ((fpbdDfs dn un el).1 = none ↔ (fpbdDfs dn un el).2 = false) ∧
      (∀ m, (fpbdDfs dn un el).1 = some m →
        hereMatches dn un m = true ∧ m ∈ nodesOf el)) ∧
    (∀ es : List Element, sizeOf es ≤ n →
      ((fpbdFold dn un es).2 = true ↔ ∃ m ∈ nodesOfList es, hereMatches dn un m = true) ∧
      ((fpbdFold dn un es).1 = none ↔ (fpbdFold dn un es).2 = false) ∧
      (∀ m, (fpbdFold dn un es).1 = some m →
        hereMatches dn un m = true ∧ m ∈ nodesOfList es)) := by
  induction n with
  | zero =>
      constructor
      · intro el hle
        exact absurd hle (by cases el <;> simp)
      · intro es hle
        exact absurd hle (by cases es <;> simp)
  | succ n ih =>
      constructor
      · intro el hle
        have hch : sizeOf (childrenOf el) ≤ n := by
          cases el with
          | part a b o => simp [childrenOf] at hle ⊢; omega
          | attr a o => simp [childrenOf] at hle ⊢; omega
          | other o => simp [childrenOf] at hle ⊢; omega
          | lit l =>
              have hl1 : 1 ≤ sizeOf l := by cases l <;> simp
              simp [childrenOf] at hle ⊢
              omega
        obtain ⟨ihH, ihN, ihF⟩ := ih.2 (childrenOf el) hch
        by_cases hm : hereMatches dn un el = true
        · have hres : fpbdDfs dn un el = (some el, true) := by
            rw [fpbdDfs_eq]; simp [fpbdStep, hm]
          rw [hres, nodesOf_eq]
          refine ⟨?_, by simp, ?_⟩
          · exact ⟨fun _ => ⟨el, List.mem_cons_self el _, hm⟩, fun _ => rfl⟩
          · intro m hsm
            injection hsm with h
            subst h
            exact ⟨hm, List.mem_cons_self _ _⟩
        · cases hcf : (fpbdFold dn un (childrenOf el)).1 with
          | some f =>
              have hf2 : (fpbdFold dn un (childrenOf el)).2 = true := by
                cases hb : (fpbdFold dn un (childrenOf el)).2 with
                | false => rw [ihN.mpr hb] at hcf; cases hcf
                | true => rfl
              have hres : fpbdDfs dn un el = (some f, true) := by
                rw [fpbdDfs_eq]; simp [fpbdStep, hm, hcf]
              obtain ⟨hfm, hfmem⟩ := ihF f hcf
              rw [hres, nodesOf_eq]
              refine ⟨⟨fun _ => ⟨f, List.mem_cons_of_mem _ hfmem, hfm⟩, fun _ => rfl⟩,
                      by simp, ?_⟩
              intro m hsm
              injection hsm with h
              subst h
              exact ⟨hfm, List.mem_cons_of_mem _ hfmem⟩
          | none =>
              have hf2 : (fpbdFold dn un (childrenOf el)).2 = false := ihN.mp hcf
              have hres : fpbdDfs dn un el = (none, false) := by
                rw [fpbdDfs_eq]; simp [fpbdStep, hm, hcf, hf2]
              rw [hres, nodesOf_eq]
              refine ⟨?_, by simp, ?_⟩
              · constructor
                · intro h; cases h
                · rintro ⟨m, hmem, hmm⟩
                  rcases List.mem_cons.mp hmem with rfl | hmem2
                  · exact absurd hmm hm
                  · have : (fpbdFold dn un (childrenOf el)).2 = true :=
                      ihH.mpr ⟨m, hmem2, hmm⟩
                    rw [hf2] at this
                    cases this
              · intro m hsm
                cases hsm
      · intro es hle
        cases es with
        | nil =>
            refine ⟨by simp [fpbdFold, nodesOfList], by simp [fpbdFold], ?_⟩
            intro m hsm
            cases hsm
        | cons e rest =>
            have hle1 : sizeOf e ≤ n := by simp at hle; omega
            have hle2 : sizeOf rest ≤ n := by simp at hle; omega
            obtain ⟨eH, eN, eF⟩ := ih.1 e hle1
            obtain ⟨rH, rN, rF⟩ := ih.2 rest hle2
            have hfold : fpbdFold dn un (e :: rest) =
                ((fpbdDfs dn un e).1 <|> (fpbdFold dn un rest).1,
                 ((fpbdDfs dn un e).2 || (fpbdDfs dn un e).1.isSome) ||
                   (fpbdFold dn un rest).2) := rfl
            have hnl : nodesOfList (e :: rest) = nodesOf e ++ nodesOfList rest := rfl
            cases ho : (fpbdDfs dn un e).1 with
            | some f =>
                have hb : (fpbdDfs dn un e).2 = true := by
                  cases hbb : (fpbdDfs dn un e).2 with
                  | false => rw [eN.mpr hbb] at ho; cases ho
                  | true => rfl
                obtain ⟨hfm, hfmem⟩ := eF f ho
                rw [hfold, hnl, ho, hb]
                refine ⟨?_, by simp, ?_⟩
                · constructor
                  · intro _
                    exact ⟨f, List.mem_append_left _ hfmem, hfm⟩
                  · intro _
                    simp
                · intro m hsm
                  simp only [Option.some_orElse] at hsm
                  injection hsm with h
                  subst h
                  exact ⟨hfm, List.mem_append_left _ hfmem⟩
            | none =>
                have hb : (fpbdDfs dn un e).2 = false := eN.mp ho
                rw [hfold, hnl, ho, hb]
                simp only [Option.none_orElse, Option.isSome_none, Bool.or_false,
                           Bool.false_or]
                refine ⟨?_, rN, ?_⟩
                · constructor
                  · intro h
                    obtain ⟨m, hmem, hmm⟩ := rH.mp h
                    exact ⟨m, List.mem_append_right _ hmem, hmm⟩
                  · rintro ⟨m, hmem, hmm⟩
                    rcases List.mem_append.mp hmem with hl | hr
                    · have : (fpbdDfs dn un e).2 = true := eH.mpr ⟨m, hl, hmm⟩
                      rw [hb] at this
                      cases this
                    · exact rH.mpr ⟨m, hr, hmm⟩
                · intro m hsm
                  obtain ⟨hmm, hmem⟩ := rF m hsm
                  exact ⟨hmm, List.mem_append_right _ hmem⟩

/-- `fcpDfs` factored through its decision step. -/
theorem fcpDfs_eq (el : Element) :
    fcpDfs el = fcpStep el (fcpFold (childrenOf el)) := by
  cases el <;> rfl

/-- A `Component`-defined node is a part usage. -/
theorem hereIsComponent_isPart (el : Element) (h : hereIsComponent el = true) :
    isPartEl el = true := by
  unfold hereIsComponent at h
  rw [Bool.and_eq_true] at h
  exact h.1

/-- Joint specification of `find_component_partusage`'s recursion: the
boolean tracks existence of a `Component`-defined part in the subtree, a
null result is equivalent to "none exists", and a non-null result is a part
node whose *subtree* contains a `Component`-defined part (not necessarily
that node itself). -/
theorem fcpSpec (n : ℕ) :
    (∀ el : Element, sizeOf el ≤ n →
      ((fcpDfs el).2 = true ↔ ∃ m ∈ nodesOf el, hereIsComponent m = true) ∧
      ((fcpDfs el).1 = none ↔ (fcpDfs el).2 = false) ∧
      (∀ m, (fcpDfs el).1 = some m →
        isPartEl m = true ∧ (∃ c ∈ nodesOf m, hereIsComponent c = true) ∧
          m ∈ nodesOf el)) ∧
    (∀ es : List Element, sizeOf es ≤ n →
      ((fcpFold es).2 = true ↔ ∃ m ∈ nodesOfList es, hereIsComponent m = true) ∧
      ((fcpFold es).1 = none ↔ (fcpFold es).2 = false) ∧
      (∀ m, (fcpFold es).1 = some m →
        isPartEl m = true ∧ (∃ c ∈ nodesOf m, hereIsComponent c = true) ∧
          m ∈ nodesOfList es)) := by
  induction n with
  | zero =>
      constructor
      · intro el hle
        exact absurd hle (by cases el <;> simp)
      · intro es hle
        exact absurd hle (by cases es <;> simp)
  | succ n ih =>
      constructor
      · intro el hle
        have hch : sizeOf (childrenOf el) ≤ n := by
          cases el with
          | part a b o => simp [childrenOf] at hle ⊢; omega
          | attr a o => simp [childrenOf] at hle ⊢; omega
          | other o => simp [childrenOf] at hle ⊢; omega
          | lit l =>
              have hl1 : 1 ≤ sizeOf l := by cases l <;> simp
              simp [childrenOf] at hle ⊢
              omega
        obtain ⟨ihH, ihN, ihF⟩ := ih.2 (childrenOf el) hch
        by_cases hcond :
            (isPartEl el && (hereIsComponent el || (fcpFold (childrenOf el)).2)) = true
        · have hres : fcpDfs el = (some el, true) := by
            rw [fcpDfs_eq]
            simp only [fcpStep, hcond, if_true]
          have hand : isPartEl el = true ∧
              (hereIsComponent el || (fcpFold (childrenOf el)).2) = true := by
            rw [← Bool.and_eq_true]; exact hcond
          have hor : hereIsComponent el = true ∨ (fcpFold (childrenOf el)).2 = true := by
            rw [← Bool.or_eq_true]; exact hand.2
          have hex : ∃ m ∈ nodesOf el, hereIsComponent m = true := by
            rcases hor with h | h
            · exact ⟨el, by rw [nodesOf_eq]; exact List.mem_cons_self _ _, h⟩
            · obtain ⟨m, hmem, hm⟩ := ihH.mp h
              exact ⟨m, by rw [nodesOf_eq]; exact List.mem_cons_of_mem _ hmem, hm⟩
          rw [hres]
          refine ⟨⟨fun _ => hex, fun _ => rfl⟩, by simp, ?_⟩
          intro m hsm
          injection hsm with h
          subst h
          exact ⟨hand.1, hex,
                 by rw [nodesOf_eq]; exact List.mem_cons_self _ _⟩
        · cases hcf : (fcpFold (childrenOf el)).1 with
          | some f =>
              have hf2 : (fcpFold (childrenOf el)).2 = true := by
                cases hb : (fcpFold (childrenOf el)).2 with
                | false => rw [ihN.mpr hb] at hcf; cases hcf
                | true => rfl
              have hres : fcpDfs el = (some f, true) := by
                rw [fcpDfs_eq]
                simp only [fcpStep, if_neg hcond, hcf]
              obtain ⟨hfp, hfc, hfmem⟩ := ihF f hcf
              rw [hres, nodesOf_eq]
              refine ⟨?_, by simp, ?_⟩
              · constructor
                · intro _
                  obtain ⟨m, hmem, hm⟩ := ihH.mp hf2
                  exact ⟨m, List.mem_cons_of_mem _ hmem, hm⟩
                · intro _
                  rfl
              · intro m hsm
                injection hsm with h
                subst h
                exact ⟨hfp, hfc, List.mem_cons_of_mem _ hfmem⟩
          | none =>
              have hf2 : (fcpFold (childrenOf el)).2 = false := ihN.mp hcf
              have hcomp : hereIsComponent el = false := by
                cases hic : hereIsComponent el with
                | true =>
                    exact absurd (by
                      rw [hereIsComponent_isPart el hic, hic]
                      rfl) hcond
                | false => rfl
              have hres : fcpDfs el = (none, false) := by
                rw [fcpDfs_eq]
                simp only [fcpStep, if_neg hcond, hcf, hcomp, hf2, Bool.or_false]
                simp
              rw [hres, nodesOf_eq]
              refine ⟨?_, by simp, ?_⟩
              · constructor
                · intro h; cases h
                · rintro ⟨m, hmem, hmm⟩
                  rcases List.mem_cons.mp hmem with rfl | hmem2
                  · rw [hcomp] at hmm; cases hmm
                  · have : (fcpFold (childrenOf el)).2 = true := ihH.mpr ⟨m, hmem2, hmm⟩
                    rw [hf2] at this
                    cases this
              · intro m hsm
                cases hsm
      · intro es hle
        cases es with
        | nil =>
            refine ⟨by simp [fcpFold, nodesOfList], by simp [fcpFold], ?_⟩
            intro m hsm
            cases hsm
        | cons e rest =>
            have hle1 : sizeOf e ≤ n := by simp at hle; omega
            have hle2 : sizeOf rest ≤ n := by simp at hle; omega
            obtain ⟨eH, eN, eF⟩ := ih.1 e hle1
            obtain ⟨rH, rN, rF⟩ := ih.2 rest hle2
            have hfold : fcpFold (e :: rest) =
                ((fcpDfs e).1 <|> (fcpFold rest).1,
                 ((fcpDfs e).2 || (fcpDfs e).1.isSome) || (fcpFold rest).2) := rfl
            have hnl : nodesOfList (e :: rest) = nodesOf e ++ nodesOfList rest := rfl
            cases ho : (fcpDfs e).1 with
            | some f =>
                have hb : (fcpDfs e).2 = true := by
                  cases hbb : (fcpDfs e).2 with
                  | false => rw [eN.mpr hbb] at ho; cases ho
                  | true => rfl
                obtain ⟨hfp, hfc, hfmem⟩ := eF f ho
                rw [hfold, hnl, ho, hb]
                refine ⟨?_, by simp, ?_⟩
                · constructor
                  · intro _
                    obtain ⟨m, hmem, hm⟩ := eH.mp hb
                    exact ⟨m, List.mem_append_left _ hmem, hm⟩
                  · intro _
                    simp
                · intro m hsm
                  simp only [Option.some_orElse] at hsm
                  injection hsm with h
                  subst h
                  exact ⟨hfp, hfc, List.mem_append_left _ hfmem⟩
            | none =>
                have hb : (fcpDfs e).2 = false := eN.mp ho
                rw [hfold, hnl, ho, hb]
                simp only [Option.none_orElse, Option.isSome_none, Bool.or_false,
                           Bool.false_or]
                refine ⟨?_, rN, ?_⟩
                · constructor
                  · intro h
                    obtain ⟨m, hmem, hmm⟩ := rH.mp h
                    exact ⟨m, List.mem_append_right _ hmem, hmm⟩
                  · rintro ⟨m, hmem, hmm⟩
                    rcases List.mem_append.mp hmem with hl | hr
                    · have : (fcpDfs e).2 = true := eH.mpr ⟨m, hl, hmm⟩
                      rw [hb] at this
                      cases this
                    · exact rH.mpr ⟨m, hr, hmm⟩
                · intro m hsm
                  obtain ⟨hmp, hmc, hmem⟩ := rF m hsm
                  exact ⟨hmp, hmc, List.mem_append_right _ hmem⟩

/-- The wrapper scenario: a plain part (no definition) containing the sole
`Component`-defined part. -/
def c4InnerEl : Element := .part (some ("inner")) ["Component"] []

/-- The wrapping part. -/
def c4WrapperEl : Element := .part (some ("wrapper")) [] [c4InnerEl]

/-- C4 counterexample: the claim says the searches return *the matching
node* closest to the root; in particular a unique match with no matching
ancestor must be returned.  In the wrapper tree only `inner` satisfies
`find_component_partusage`'s documented predicate ("PartUsage whose
PartDefinition name is Component"), and no ancestor of it matches — yet the
search returns the non-matching `wrapper`, because its `dfs` returns any
part whose *subtree* contains a match (line 472: `if is_part and
subtree_has_component`). -/
theorem c4_counterexample :
    (findComponentPartusage c4WrapperEl).map elName = some (some ("wrapper")) ∧
    hereIsComponent c4WrapperEl = false ∧
    hereIsComponent c4InnerEl = true ∧
    (nodesOf c4WrapperEl).map elName = [some ("wrapper"), some ("inner")] := by
  refine ⟨by decide, by decide, by decide, by decide⟩

/-- C4 (amended): `find_partusage_by_definition` behaves exactly as the
claim states: a matching root is returned even when deeper matches exist,
any returned node satisfies the predicate and lies in the tree (so a unique
match with no matching ancestor is returned), and `null` is returned iff no
node matches.  `find_component_partusage`, however, returns the topmost
*part whose subtree contains* a `Component`-defined part: its result need
not itself match; it returns `null` iff the tree contains no
`Component`-defined part, and any returned node is a part node whose
subtree contains one. -/
theorem c4_topmost_amended (dn : String) (un : Option String) (t : Element) :
    (hereMatches dn un t = true → findPartusageByDefinition t dn un = some t) ∧
    (findPartusageByDefinition t dn un = none ↔
      ∀ m ∈ nodesOf t, ¬hereMatches dn un m = true) ∧
    (∀ m, findPartusageByDefinition t dn un = some m →
      hereMatches dn un m = true ∧ m ∈ nodesOf t) ∧
    (findComponentPartusage t = none ↔
      ∀ m ∈ nodesOf t, ¬hereIsComponent m = true) ∧
    (∀ m, findComponentPartusage t = some m →
      isPartEl m = true ∧ ∃ c ∈ nodesOf m, hereIsComponent c = true) := by
  obtain ⟨tH, tN, tF⟩ := (fpbdSpec dn un (sizeOf t)).1 t (le_refl _)
  obtain ⟨cH, cN, cF⟩ := (fcpSpec (sizeOf t)).1 t (le_refl _)
  refine ⟨?_, ?_, ?_, ?_, ?_⟩
  · intro hm
    unfold findPartusageByDefinition
    rw [fpbdDfs_eq]
    simp [fpbdStep, hm]
  · constructor
    · intro hn m hmem hmm
      have h2 : (fpbdDfs dn un t).2 = false := tN.mp hn
      have : (fpbdDfs dn un t).2 = true := tH.mpr ⟨m, hmem, hmm⟩
      rw [h2] at this
      cases this
    · intro hall
      apply tN.mpr
      cases h2 : (fpbdDfs dn un t).2 with
      | false => rfl
      | true =>
          obtain ⟨m, hmem, hmm⟩ := tH.mp h2
          exact absurd hmm (hall m hmem)
  · exact tF
  · constructor
    · intro hn m hmem hmm
      have h2 : (fcpDfs t).2 = false := cN.mp hn
      have : (fcpDfs t).2 = true := cH.mpr ⟨m, hmem, hmm⟩
      rw [h2] at this
      cases this
    · intro hall
      apply cN.mpr
      cases h2 : (fcpDfs t).2 with
      | false => rfl
      | true =>
          obtain ⟨m, hmem, hmm⟩ := cH.mp h2
          exact absurd hmm (hall m hmem)
  · intro m hsm
    obtain ⟨hp, hc, _⟩ := cF m hsm
    exact ⟨hp, hc⟩

/-- Witness for C4 (amended) at a concrete tree: the root of the
test model matches the `Component` definition filter, so the search
returns the root itself even though deeper parts exist; and on a tree with
no `Component`-defined part both searches return null. -/
theorem c4_topmost_amended_witness :
    findPartusageByDefinition rootEl ("Component") (some ("rootelement")) = some rootEl ∧
    (findComponentPartusage (.other [attrQEl ("tx") 1]) = none) :=
  ⟨(c4_topmost_amended ("Component") (some ("rootelement")) rootEl).1 (by decide),
   (c4_topmost_amended ("Component") none (.other [attrQEl ("tx") 1])).2.2.2.1.mpr
     (by decide)⟩

/-! ## Claim C6: expression-valued attributes. -/

/-- `collect_attr` of the world accumulator can only raise `TypeError`. -/
theorem evalWLit_error (l : Lit) (e : PyErr) (h : evalWLit l = .error e) :
    e = .typeError := by
  cases l with
  | rational v => cases h
  | integer n => cases h
  | str s => cases h
  | expr v =>
      cases v with
      | none => injection h with h1; exact h1.symm
      | some q => cases h

/-- If some attribute's expression cannot be evaluated, the world
accumulator's attribute collection raises `TypeError`. -/
theorem collectW_mem_bad (anm : String) (arest : List Element) :
    ∀ (owned : List Element) (acc : Vals),
      (Element.attr anm (.lit (.expr none) :: arest)) ∈ owned →
      collectW owned acc = .error .typeError := by
  intro owned
  induction owned with
  | nil =>
      intro acc hmem
      cases hmem
  | cons e rest ih =>
      intro acc hmem
      rcases List.mem_cons.mp hmem with rfl | hmem2
      · rfl
      · cases e with
        | attr nm2 owned2 =>
            cases owned2 with
            | nil => exact ih acc hmem2
            | cons e2 tail =>
                cases e2 with
                | lit l =>
                    simp only [collectW, List.head?]
                    cases hel : evalWLit l with
                    | error er => rw [evalWLit_error l er hel]
                    | ok v => exact ih _ hmem2
                | part a b c => exact ih acc hmem2
                | attr a b => exact ih acc hmem2
                | other a => exact ih acc hmem2
        | part a b c => exact ih acc hmem2
        | lit l => exact ih acc hmem2
        | other a => exact ih acc hmem2

/-- If some attribute's expression cannot be evaluated, `load_from_sysml`'s
attribute collection raises. -/
theorem collectL_mem_bad (anm : String) (arest : List Element) :
    ∀ (owned : List Element) (acc : List (String × ℚ)),
      (Element.attr anm (.lit (.expr none) :: arest)) ∈ owned →
      ∃ e, collectL owned acc = .error e := by
  intro owned
  induction owned with
  | nil =>
      intro acc hmem
      cases hmem
  | cons e rest ih =>
      intro acc hmem
      rcases List.mem_cons.mp hmem with rfl | hmem2
      · exact ⟨.typeError, rfl⟩
      · cases e with
        | attr nm2 owned2 =>
            cases owned2 with
            | nil => exact ih acc hmem2
            | cons e2 tail =>
                cases e2 with
                | lit l =>
                    simp only [collectL, List.head?]
                    cases hel : evalLLit l with
                    | error er => exact ⟨er, rfl⟩
                    | ok v => exact ih _ hmem2
                | part a b c => exact ih acc hmem2
                | attr a b => exact ih acc hmem2
                | other a => exact ih acc hmem2
        | part a b c => exact ih acc hmem2
        | lit l => exact ih acc hmem2
        | other a => exact ih acc hmem2

/-- A part with a numeric typeID literal and an expression-valued `tx`
attribute (whose provider evaluation yields `v`). -/
def c6Part (v : Option ℚ) : Element :=
  .part (some ("p")) [] [attrIEl ("typeID") 1, .attr ("tx") [.lit (.expr v)]]

/-- C6 counterexample: the claim says all three reading operations evaluate
a present non-literal attribute expression via the provider and never
substitute the 0.0 default.  But `components_from_part`'s `collect_attr`
(lines 212-218) accepts only literal rationals/integers, so a `tx` held by
an expression the provider evaluates to 5.0 is silently dropped and the
emitted record carries the 0.0 default. -/
theorem c6_counterexample :
    (componentsFromPart (c6Part (some 5))).map (fun r => (r.name, r.tx)) =
      [("p", (0 : ℚ))] := by
  decide

/-- A document whose first part has an unevaluable attribute expression and
whose second part would qualify for materialization. -/
def c6DeepBad : Element :=
  .other [.part (some ("q")) [] [.attr ("tx") [.lit (.expr none)]],
          .part (some ("g")) ["Component"] []]

/-- C6 (amended): `components_from_part_world` evaluates non-literal
attribute expressions through the provider and an evaluation failure
(`float(None)` → `TypeError`) is propagated to the caller;
`components_from_part` never evaluates expressions — a present,
provider-evaluable expression attribute is silently dropped and the 0.0
default substituted (the record is the same whatever the provider would
answer, including evaluation failure); `load_from_sysml` also evaluates
expressions, but only a failure on the traversal root's own attributes
propagates — a failure below is caught by the `try/except` around the child
loop (lines 577-580), which also skips the remaining siblings (here the
materializable part `g` is lost and the result is the empty root list). -/
theorem c6_expression_amended (deg : Bool) (tm : Q3 → Q3 → Mat4Q) (ef : Mat4Q → Q3)
    (nm : Option String) (defs : List String) (owned : List Element)
    (st : WState) (anm : String) (arest : List Element) (v : Option ℚ) (stL : Store) :
    ((Element.attr anm (.lit (.expr none) :: arest)) ∈ owned →
      visitW deg tm ef (.part nm defs owned) st = .error .typeError ∧
      componentsFromPartWorld deg tm ef (.part nm defs owned) = .error .typeError) ∧
    componentsFromPart (c6Part v) = [⟨"p", 1, 0, 0, 0, 0, 0, 0, none, none⟩] ∧
    ((Element.attr anm (.lit (.expr none) :: arest)) ∈ owned →
      ∃ e, loadFromSysml (.part nm defs owned) true stL = .error e) ∧
    loadFromSysml c6DeepBad true stL = .ok (.emptyRoots, { stL with reg := [] }) := by
  refine ⟨?_, ?_, ?_, ?_⟩
  · intro hmem
    have hc := collectW_mem_bad anm arest owned [] hmem
    constructor
    · simp only [visitW, hc]
    · simp only [componentsFromPartWorld, visitW, hc]
  · have h0 : componentsFromPart (c6Part v) = componentsFromPart (c6Part none) := rfl
    rw [h0]
    decide
  · intro hmem
    obtain ⟨e, hc⟩ := collectL_mem_bad anm arest owned [] hmem
    refine ⟨e, ?_⟩
    simp only [loadFromSysml, if_true, visitL, hc]
  · rfl

/-- Witness for C6 (amended) at a concrete input: a part carrying the
unevaluable attribute makes the world accumulator fail with `TypeError`,
while `load_from_sysml` started at the same part also propagates. -/
theorem c6_expression_amended_witness :
    (visitW false tmTriv efTriv
        (.part (some ("p")) [] [.attr ("rx") [.lit (.expr none)]])
        { T := 1, compParent := none } = .error .typeError ∧
      componentsFromPartWorld false tmTriv efTriv
        (.part (some ("p")) [] [.attr ("rx") [.lit (.expr none)]]) =
        .error .typeError) ∧
    ∃ e, loadFromSysml (.part (some ("p")) [] [.attr ("rx") [.lit (.expr none)]])
        true emptyStore = .error e :=
  ⟨(c6_expression_amended false tmTriv efTriv (some ("p")) []
      [.attr ("rx") [.lit (.expr none)]] { T := 1, compParent := none }
      ("rx") [] none emptyStore).1 (List.mem_singleton.mpr rfl),
   (c6_expression_amended false tmTriv efTriv (some ("p")) []
      [.attr ("rx") [.lit (.expr none)]] { T := 1, compParent := none }
      ("rx") [] none emptyStore).2.2.1 (List.mem_singleton.mpr rfl)⟩

/-! ## Claim C8: the absolute-transform recurrence of the world-pose
accumulator, exercised on arbitrary attribute chains. -/

/-- Attribute elements for a list of numeric attribute bindings. -/
def attrsEls (a : List (String × ℚ)) : List Element :=
  a.map (fun p => .attr p.1 [.lit (.rational p.2)])

/-- A leaf part usage with the given name and numeric attributes. -/
def leafEl (p : String × List (String × ℚ)) : Element :=
  .part (some p.1) [] (attrsEls p.2)

/-- A nested chain of part usages: each level holds its attribute elements
and a non-part wrapper containing the next level; the innermost level owns
a whole list of leaf parts (all children of one frame). -/
def chainEl : List (String × List (String × ℚ)) →
    List (String × List (String × ℚ)) → Element
  | [], leaves => .other (leaves.map leafEl)
  | lvl :: rest, leaves =>
      .part (some lvl.1) [] (attrsEls lvl.2 ++ [.other [chainEl rest leaves]])

/-- The value the accumulator reads for attribute `k` (the most recent
binding wins, missing attributes default to 0.0). -/
def aget (a : List (String × ℚ)) (k : String) : ℚ :=
  match a.reverse.find? (fun p => p.1 == k) with
  | some p => p.2
  | none => 0

/-- The local transform the accumulator builds from an attribute list
(radian mode). -/
def locT (tm : Q3 → Q3 → Mat4Q) (a : List (String × ℚ)) : Mat4Q :=
  tm (aget a ("tx"), aget a ("ty"), aget a ("tz"))
     (aget a ("rx"), aget a ("ry"), aget a ("rz"))

/-- The claimed absolute transforms of the chain levels: each level's
absolute transform is its predecessor's times its own local transform. -/
def chainT (tm : Q3 → Q3 → Mat4Q) (T0 : Mat4Q) :
    List (String × List (String × ℚ)) → List Mat4Q
  | [] => []
  | lvl :: rest => (T0 * locT tm lvl.2) :: chainT tm (T0 * locT tm lvl.2) rest

/-- The absolute transform of the innermost chain frame. -/
def foldT (tm : Q3 → Q3 → Mat4Q) (T0 : Mat4Q) :
    List (String × List (String × ℚ)) → Mat4Q
  | [] => T0
  | lvl :: rest => foldT tm (T0 * locT tm lvl.2) rest

/-- Translation column of a homogeneous transform. -/
def projT (T : Mat4Q) : Q3 := (T 0 3, T 1 3, T 2 3)

/-- The collected attribute values of `attrsEls a`. -/
def revNums (a : List (String × ℚ)) : Vals :=
  (a.map (fun p => (p.1, PyVal.num p.2))).reverse

/-- Collecting the attribute elements prepends their values in order. -/
theorem collectW_attrsEls (a : List (String × ℚ)) :
    ∀ (rest : List Element) (acc : Vals),
      collectW (attrsEls a ++ rest) acc = collectW rest (revNums a ++ acc) := by
  induction a with
  | nil => intro rest acc; simp [attrsEls, revNums]
  | cons p tl ih =>
      intro rest acc
      simp only [attrsEls, List.map_cons, List.cons_append, collectW, List.head?,
                 evalWLit, dset, List.append_eq]
      have h2 := ih rest ((p.1, PyVal.num p.2) :: acc)
      simp only [attrsEls] at h2
      rw [h2]
      congr 1
      simp [revNums, List.reverse_cons, List.append_assoc]

/-- The collected values of an attribute list, read back. -/
theorem dget_revNums (a : List (String × ℚ)) (k : String) :
    dget (revNums a) k =
      (a.reverse.find? (fun p => p.1 == k)).map (fun p => PyVal.num p.2) := by
  unfold dget revNums
  rw [← List.map_reverse, List.find?_map, Option.map_map]
  rfl

/-- Reading a pose scalar from collected numeric attributes yields `aget`
(most recent binding, default 0). -/
theorem getNumD_revNums (a : List (String × ℚ)) (k : String) :
    getNumD (revNums a) k = .ok (aget a k) := by
  unfold getNumD aget
  rw [dget_revNums]
  cases h : a.reverse.find? (fun p => p.1 == k) <;> simp

/-- The parent fields succeed whenever the stored ancestor name does not
have length exactly one. -/
theorem compParentFields_ok (cp : Option String)
    (hcp : ∀ s, cp = some s → s.data.length ≠ 1) :
    ∃ pf, compParentFields cp = .ok pf := by
  cases cp with
  | none => exact ⟨(none, none), rfl⟩
  | some s =>
      obtain ⟨cs⟩ := s
      have h1 : (String.mk cs).data.length ≠ 1 := hcp _ rfl
      cases cs with
      | nil => exact ⟨(none, none), rfl⟩
      | cons c0 ctl =>
          cases ctl with
          | nil => exact absurd (by simp) h1
          | cons c1 ctl2 =>
              refine ⟨(some (String.singleton c0), some (String.singleton c1)), ?_⟩
              have hne : String.mk (c0 :: c1 :: ctl2) ≠ "" := by
                intro h
                have h2 := congrArg String.data h
                simp at h2
              simp [compParentFields, pyCharAt, hne, List.get?]

/-- `visitWList` over an appended forest. -/
theorem visitWList_append (deg : Bool) (tm : Q3 → Q3 → Mat4Q) (ef : Mat4Q → Q3) :
    ∀ (xs ys : List Element) (st : WState),
      visitWList deg tm ef (xs ++ ys) st =
        match visitWList deg tm ef xs st with
        | .error e => .error e
        | .ok a =>
            match visitWList deg tm ef ys st with
            | .error e => .error e
            | .ok b => .ok (a ++ b) := by
  intro xs
  induction xs with
  | nil =>
      intro ys st
      simp only [List.nil_append]
      cases h : visitWList deg tm ef ys st <;> simp [visitWList]
  | cons x xt ih =>
      intro ys st
      simp only [List.cons_append, visitWList]
      cases hx : visitW deg tm ef x st with
      | error e => rfl
      | ok a =>
          simp only [List.append_eq]
          rw [ih ys st]
          cases ht : visitWList deg tm ef xt st with
          | error e => rfl
          | ok b =>
              cases hy : visitWList deg tm ef ys st with
              | error e => rfl
              | ok c => simp [List.append_assoc]

/-- Attribute elements produce no records. -/
theorem visitWList_attrsEls (deg : Bool) (tm : Q3 → Q3 → Mat4Q) (ef : Mat4Q → Q3)
    (a : List (String × ℚ)) :
    ∀ st, visitWList deg tm ef (attrsEls a) st = .ok [] := by
  induction a with
  | nil => intro st; rfl
  | cons p tl ih =>
      intro st
      simp only [attrsEls, List.map_cons, visitWList, visitW]
      have h2 := ih st
      simp only [attrsEls] at h2
      rw [h2]
      rfl

/-- The record the world accumulator emits (radian mode) for a part named
`nm` with numeric attributes `a`, entered with absolute transform `T0` and
parent fields `pf`. -/
def mkWRec (tm : Q3 → Q3 → Mat4Q) (ef : Mat4Q → Q3) (nm : String)
    (a : List (String × ℚ)) (T0 : Mat4Q) (pf : Option String × Option String) : WRec :=
  { name := toFloatPy (.str nm)
    tx := aget a ("tx"), ty := aget a ("ty"), tz := aget a ("tz")
    rx := aget a ("rx"), ry := aget a ("ry"), rz := aget a ("rz")
    abs_tx := (T0 * locT tm a) 0 3
    abs_ty := (T0 * locT tm a) 1 3
    abs_tz := (T0 * locT tm a) 2 3
    abs_rx := (ef (T0 * locT tm a)).1
    abs_ry := (ef (T0 * locT tm a)).2.1
    abs_rz := (ef (T0 * locT tm a)).2.2
    parent_name := pf.1.map (fun c => toFloatPy (.str c))
    parent_typeID := pf.2.map (fun c => toFloatPy (.str c))
    onshape_url := (dget (revNums a) ("onshape_url")).map toFloatPy }

/-- Evaluation of the world accumulator on a part usage whose owned
elements are numeric attribute elements followed by non-collectible
elements: the record is emitted and the children are visited with the
composed absolute transform `st.T * locT tm a` and this part as nearest
component ancestor. -/
theorem visitW_part_attrs (tm : Q3 → Q3 → Mat4Q) (ef : Mat4Q → Q3) (nm : String)
    (a : List (String × ℚ)) (rest : List Element) (st : WState)
    (pf : Option String × Option String)
    (hpf : compParentFields st.compParent = .ok pf)
    (hrest : ∀ acc, collectW rest acc = .ok acc) :
    visitW false tm ef (.part (some nm) [] (attrsEls a ++ rest)) st =
      match visitWList false tm ef (attrsEls a ++ rest)
          { T := st.T * locT tm a, compParent := some nm } with
      | .error e => .error e
      | .ok rs => .ok (mkWRec tm ef nm a st.T pf :: rs) := by
  have hcoll : collectW (attrsEls a ++ rest) [] = .ok (revNums a) := by
    rw [collectW_attrsEls a rest [], hrest (revNums a ++ [])]
    rw [List.append_nil]
  simp only [visitW, hcoll, getNumD_revNums, hpf, toRadQ, if_neg (by simp : ¬false = true)]
  rfl

/-- All leaves of one frame are emitted with the same incoming state. -/
theorem leavesRun (tm : Q3 → Q3 → Mat4Q) (ef : Mat4Q → Q3) :
    ∀ (leaves : List (String × List (String × ℚ))) (st : WState)
      (pf : Option String × Option String),
      compParentFields st.compParent = .ok pf →
      visitWList false tm ef (leaves.map leafEl) st =
        .ok (leaves.map (fun lf => mkWRec tm ef lf.1 lf.2 st.T pf)) := by
  intro leaves
  induction leaves with
  | nil => intro st pf _; rfl
  | cons lf rest ih =>
      intro st pf hpf
      simp only [List.map_cons, visitWList]
      have h1 : visitW false tm ef (leafEl lf) st =
          .ok [mkWRec tm ef lf.1 lf.2 st.T pf] := by
        have h2 := visitW_part_attrs tm ef lf.1 lf.2 [] st pf hpf (fun acc => rfl)
        rw [List.append_nil] at h2
        unfold leafEl
        rw [h2, visitWList_attrsEls]
      rw [h1, ih st pf hpf]
      rfl

/-- The absolute transforms of a chain-with-leaves document, for any
starting state: each level's transform is its parent frame's times its own
local transform, and every leaf shares the innermost frame. -/
theorem c8aux (tm : Q3 → Q3 → Mat4Q) (ef : Mat4Q → Q3) :
    ∀ (levels leaves : List (String × List (String × ℚ))) (st : WState),
      (∀ nm ∈ levels.map Prod.fst, nm.data.length ≠ 1) →
      (∀ s, st.compParent = some s → s.data.length ≠ 1) →
      ∃ recs, visitW false tm ef (chainEl levels leaves) st = .ok recs ∧
        recs.map (fun r => (r.abs_tx, r.abs_ty, r.abs_tz)) =
          (chainT tm st.T levels).map projT ++
            leaves.map (fun lf => projT (foldT tm st.T levels * locT tm lf.2)) := by
  intro levels
  induction levels with
  | nil =>
      intro leaves st hlv hcp
      obtain ⟨pf, hpf⟩ := compParentFields_ok st.compParent hcp
      refine ⟨leaves.map (fun lf => mkWRec tm ef lf.1 lf.2 st.T pf), ?_, ?_⟩
      · exact leavesRun tm ef leaves st pf hpf
      · simp [chainT, foldT, mkWRec, projT, List.map_map]
  | cons lvl rest ih =>
      intro leaves st hlv hcp
      obtain ⟨pf, hpf⟩ := compParentFields_ok st.compParent hcp
      have hcp' : ∀ s,
          (WState.mk (st.T * locT tm lvl.2) (some lvl.1)).compParent = some s →
          s.data.length ≠ 1 := by
        intro s hs
        injection hs with hs2
        subst hs2
        exact hlv lvl.1 (by simp)
      have hlv' : ∀ nm ∈ rest.map Prod.fst, nm.data.length ≠ 1 := by
        intro nm h
        exact hlv nm (by simp [List.map_cons]; right; simpa using h)
      obtain ⟨recs', h1, h2⟩ :=
        ih leaves (WState.mk (st.T * locT tm lvl.2) (some lvl.1)) hlv' hcp'
      have hkids : visitWList false tm ef
          (attrsEls lvl.2 ++ [.other [chainEl rest leaves]])
          (WState.mk (st.T * locT tm lvl.2) (some lvl.1)) = .ok recs' := by
        rw [visitWList_append, visitWList_attrsEls]
        have hone : visitWList false tm ef [.other [chainEl rest leaves]]
            (WState.mk (st.T * locT tm lvl.2) (some lvl.1)) = .ok recs' := by
          simp only [visitWList, visitW, h1]
          simp
        rw [hone]
        simp
      have hmain := visitW_part_attrs tm ef lvl.1 lvl.2
        [.other [chainEl rest leaves]] st pf hpf (fun acc => rfl)
      refine ⟨mkWRec tm ef lvl.1 lvl.2 st.T pf :: recs', ?_, ?_⟩
      · have hch : chainEl (lvl :: rest) leaves =
            .part (some lvl.1) [] (attrsEls lvl.2 ++ [.other [chainEl rest leaves]]) := rfl
        rw [hch, hmain, hkids]
      · simp only [List.map_cons, chainT, foldT, mkWRec, projT] at h2 ⊢
        rw [h2]
        rfl

/-- C8: for every chain of part usages with arbitrary numeric attributes
(with non-part wrapper nodes interleaved, and a whole list of leaf parts as
children of the innermost frame), the world-pose accumulator — seeded with
the identity at the call root — gives every visited part the absolute
transform `parent frame * local transform`, where the local transform is
built from the node's attributes with every missing scalar defaulting to
0.0 (`aget`); the frame is propagated through non-part nodes unchanged and
to *all* children alike, whether or not a level carries a typeID (typeID is
irrelevant to frame propagation).  The translation columns of the emitted
records are exactly those of the recurrence `chainT`/`foldT`. -/
theorem c8_world_pose_recurrence (tm : Q3 → Q3 → Mat4Q) (ef : Mat4Q → Q3)
    (levels leaves : List (String × List (String × ℚ)))
    (hn : ∀ nm ∈ levels.map Prod.fst, nm.data.length ≠ 1) :
    ∃ recs, componentsFromPartWorld false tm ef (chainEl levels leaves) = .ok recs ∧
      recs.map (fun r => (r.abs_tx, r.abs_ty, r.abs_tz)) =
        (chainT tm 1 levels).map projT ++
          leaves.map (fun lf => projT (foldT tm 1 levels * locT tm lf.2)) := by
  have h := c8aux tm ef levels leaves { T := 1, compParent := none } hn
    (fun s hs => by cases hs)
  simpa [componentsFromPartWorld] using h

/-- The chain levels of the C8 witness. -/
def c8WitLevels : List (String × List (String × ℚ)) :=
  [("aa", [("tx", 1)]), ("bb", [("ty", 2), ("junk", 5), ("ty", 7)])]

/-- The leaves of the C8 witness. -/
def c8WitLeaves : List (String × List (String × ℚ)) :=
  [("l1", [("tz", 3)]), ("l2", [])]

/-- Witness for C8 at a concrete chain with concrete transform functions. -/
theorem c8_world_pose_recurrence_witness :
    ∃ recs, componentsFromPartWorld false tmTriv efTriv
        (chainEl c8WitLevels c8WitLeaves) = .ok recs ∧
      recs.map (fun r => (r.abs_tx, r.abs_ty, r.abs_tz)) =
        (chainT tmTriv 1 c8WitLevels).map projT ++
          c8WitLeaves.map (fun lf => projT (foldT tmTriv 1 c8WitLevels * locT tmTriv lf.2)) :=
  c8_world_pose_recurrence tmTriv efTriv c8WitLevels c8WitLeaves (by decide)

/-! ## Claim C7: the degree/radian boundary. -/

/-- The rotation attribute names. -/
def rKeys : List String := ["rx", "ry", "rz"]

/-- Multiply a numeric value by the degree-to-radian factor. -/
def scaleV : PyVal → PyVal
  | .num q => .num (q * (mathPi / 180))
  | .str s => .str s

/-- The radian equivalent of a literal given in degrees. -/
def scaleLit : Lit → Lit
  | .rational v => .rational (v * (mathPi / 180))
  | .integer n => .rational ((n : ℚ) * (mathPi / 180))
  | .str s => .str s
  | .expr v => .expr (v.map (fun q => q * (mathPi / 180)))

/-- Scale the value element of an attribute (its first owned element, when
it is a literal/expression node). -/
def scaleHead : List Element → List Element
  | .lit l :: rest => .lit (scaleLit l) :: rest
  | es => es

mutual

/-- The radian-equivalent document: every rotation attribute's value is
converted from degrees to radians; everything else is untouched. -/
def mapRadEl : Element → Element
  | .part nm defs owned => .part nm defs (mapRadList owned)
  | .attr nm owned =>
      .attr nm (if rKeys.contains nm then scaleHead (mapRadList owned) else mapRadList owned)
  | .lit l => .lit l
  | .other owned => .other (mapRadList owned)

/-- `mapRadEl` over a forest. -/
def mapRadList : List Element → List Element
  | [] => []
  | e :: es => mapRadEl e :: mapRadList es

end

/-- Scale one collected binding if its key is a rotation attribute. -/
def scaleEntry (p : String × PyVal) : String × PyVal :=
  if rKeys.contains p.1 then (p.1, scaleV p.2) else p

/-- Scale the rotation bindings of a collected dict. -/
def scaleVals (vs : Vals) : Vals := vs.map scaleEntry

/-- Convert the degree-mode output record to its radian-run counterpart:
the local and absolute rotation fields each carry one radian-to-degree
conversion. -/
def recToDeg (r : WRec) : WRec :=
  { r with
    rx := toDegQ r.rx, ry := toDegQ r.ry, rz := toDegQ r.rz
    abs_rx := toDegQ r.abs_rx, abs_ry := toDegQ r.abs_ry, abs_rz := toDegQ r.abs_rz }

/-- `mathPi` is nonzero. -/
theorem mathPi_ne_zero : mathPi ≠ 0 := by
  unfold mathPi
  norm_num

/-- One radian-to-degree conversion undoes the degree-to-radian factor. -/
theorem toDegQ_scale (v : ℚ) : toDegQ (v * (mathPi / 180)) = v := by
  unfold toDegQ
  field_simp
  rw [mul_div_assoc, div_self mathPi_ne_zero, mul_one]

/-- `to_rad` in degree mode is multiplication by the factor. -/
theorem toRadQ_true (v : ℚ) : toRadQ true v = v * (mathPi / 180) := by
  unfold toRadQ
  rw [if_pos rfl]
  ring

/-- Keys are preserved by scaling. -/
theorem scaleEntry_fst (p : String × PyVal) : (scaleEntry p).1 = p.1 := by
  unfold scaleEntry
  split <;> rfl

/-- Reading a scaled dict. -/
theorem dget_scaleVals (vs : Vals) (k : String) :
    dget (scaleVals vs) k =
      (dget vs k).map (fun v => if rKeys.contains k then scaleV v else v) := by
  induction vs with
  | nil => rfl
  | cons p rest ih =>
      by_cases hk : p.1 = k
      · unfold dget scaleVals
        rw [List.map_cons, List.find?_cons_of_pos _ (by simp [scaleEntry_fst, hk]),
            List.find?_cons_of_pos _ (by simp [hk])]
        subst hk
        by_cases hr : p.1 ∈ rKeys <;> simp [scaleEntry, hr]
      · unfold dget scaleVals at ih ⊢
        rw [List.map_cons, List.find?_cons_of_neg _ (by simp [scaleEntry_fst, hk]),
            List.find?_cons_of_neg _ (by simp [hk])]
        exact ih

/-- Reading a non-rotation scalar from a scaled dict is unchanged. -/
theorem getNumD_scale_nonrot (vs : Vals) (k : String) (h : rKeys.contains k = false) :
    getNumD (scaleVals vs) k = getNumD vs k := by
  unfold getNumD
  rw [dget_scaleVals, h]
  cases dget vs k with
  | none => rfl
  | some v => cases v <;> rfl

/-- Reading a rotation scalar from a scaled dict scales the value (strings
stay strings, so the `TypeError` cases coincide). -/
theorem getNumD_scale_rot (vs : Vals) (k : String) (h : rKeys.contains k = true) :
    getNumD (scaleVals vs) k = (getNumD vs k).map (fun v => v * (mathPi / 180)) := by
  unfold getNumD
  rw [dget_scaleVals, h]
  cases dget vs k with
  | none => simp [scaleV, Except.map]
  | some v => cases v <;> simp [scaleV, Except.map]

/-- Evaluating a scaled literal scales the evaluated value (failures are
unchanged `TypeError`s). -/
theorem evalWLit_scale (l : Lit) :
    evalWLit (scaleLit l) = (evalWLit l).map scaleV := by
  cases l with
  | rational v => rfl
  | integer n => rfl
  | str s => rfl
  | expr v => cases v <;> rfl

/-- Collecting the radian-equivalent document's attributes yields the
scaled dict (and the same error otherwise). -/
theorem collectW_scale : ∀ (owned : List Element) (acc : Vals),
    collectW (mapRadList owned) (scaleVals acc) = (collectW owned acc).map scaleVals := by
  intro owned
  induction owned with
  | nil => intro acc; rfl
  | cons e rest ih =>
      intro acc
      cases e with
      | part a b c =>
          simp only [mapRadList, mapRadEl, collectW]
          exact ih acc
      | lit l =>
          simp only [mapRadList, mapRadEl, collectW]
          exact ih acc
      | other a =>
          simp only [mapRadList, mapRadEl, collectW]
          exact ih acc
      | attr nm owned2 =>
          by_cases hnm : rKeys.contains nm
          · cases owned2 with
            | nil =>
                simp only [mapRadList, mapRadEl, if_pos hnm, scaleHead, collectW, List.head?]
                exact ih acc
            | cons e2 tail =>
                cases e2 with
                | lit l =>
                    simp only [mapRadList, mapRadEl, if_pos hnm, scaleHead, collectW,
                               List.head?]
                    rw [evalWLit_scale]
                    cases hel : evalWLit l with
                    | error e => rfl
                    | ok v =>
                        have hd : dset nm (scaleV v) (scaleVals acc) =
                            scaleVals (dset nm v acc) := by
                          unfold dset scaleVals
                          rw [List.map_cons]
                          unfold scaleEntry
                          rw [if_pos hnm]
                        simp only [Except.map]
                        rw [hd]
                        exact ih (dset nm v acc)
                | part a b c =>
                    simp only [mapRadList, mapRadEl, if_pos hnm, scaleHead, collectW,
                               List.head?]
                    exact ih acc
                | attr a b =>
                    simp only [mapRadList, mapRadEl, if_pos hnm, scaleHead, collectW,
                               List.head?]
                    exact ih acc
                | other a =>
                    simp only [mapRadList, mapRadEl, if_pos hnm, scaleHead, collectW,
                               List.head?]
                    exact ih acc
          · cases owned2 with
            | nil =>
                simp only [mapRadList, mapRadEl, if_neg hnm, collectW, List.head?]
                exact ih acc
            | cons e2 tail =>
                cases e2 with
                | lit l =>
                    simp only [mapRadList, mapRadEl, if_neg hnm, collectW, List.head?]
                    cases hel : evalWLit l with
                    | error e => rfl
                    | ok v =>
                        have hd : dset nm v (scaleVals acc) =
                            scaleVals (dset nm v acc) := by
                          unfold dset scaleVals
                          rw [List.map_cons]
                          unfold scaleEntry
                          rw [if_neg hnm]
                        show collectW (mapRadList rest) (dset nm v (scaleVals acc)) =
                          Except.map scaleVals (collectW rest (dset nm v acc))
                        rw [hd]
                        exact ih (dset nm v acc)
                | part a b c =>
                    simp only [mapRadList, mapRadEl, if_neg hnm, collectW, List.head?]
                    exact ih acc
                | attr a b =>
                    simp only [mapRadList, mapRadEl, if_neg hnm, collectW, List.head?]
                    exact ih acc
                | other a =>
                    simp only [mapRadList, mapRadEl, if_neg hnm, collectW, List.head?]
                    exact ih acc

/-- `to_rad` in radian mode is the identity. -/
theorem toRadQ_false (v : ℚ) : toRadQ false v = v := rfl

/-- Scaling a list's literal head does not change visiting: a literal head
emits no records in either form. -/
theorem visitWList_scaleHead (deg : Bool) (tm : Q3 → Q3 → Mat4Q) (ef : Mat4Q → Q3)
    (xs : List Element) (st : WState) :
    visitWList deg tm ef (scaleHead xs) st = visitWList deg tm ef xs st := by
  cases xs with
  | nil => rfl
  | cons e es =>
      cases e with
      | lit l => simp only [scaleHead, visitWList, visitW]
      | part a b c => rfl
      | attr a b => rfl
      | other a => rfl

/-- Prepending a record commutes with the per-record conversion under the
error-propagating match. -/
theorem except_cons_map (w : Except PyErr (List WRec)) (a b : WRec)
    (hab : b = recToDeg a) :
    (match Except.map (List.map recToDeg) w with
     | .error e => .error e
     | .ok r => .ok (b :: r)) =
      Except.map (List.map recToDeg)
        (match w with
         | .error e => .error e
         | .ok r => .ok (a :: r)) := by
  subst hab
  cases w <;> rfl

/-- The degree-mode traversal equals the radian-mode traversal of the
radian-equivalent document with each record's rotation fields converted
back to degrees: strong induction on size, jointly for elements and
forests. -/
theorem visitW_rad (tm : Q3 → Q3 → Mat4Q) (ef : Mat4Q → Q3) (n : ℕ) :
    (∀ el : Element, sizeOf el ≤ n → ∀ st : WState,
      visitW true tm ef el st =
        Except.map (List.map recToDeg) (visitW false tm ef (mapRadEl el) st)) ∧
    (∀ es : List Element, sizeOf es ≤ n → ∀ st : WState,
      visitWList true tm ef es st =
        Except.map (List.map recToDeg) (visitWList false tm ef (mapRadList es) st)) := by
  induction n with
  | zero =>
      constructor
      · intro el hle
        exact absurd hle (by cases el <;> simp)
      · intro es hle
        exact absurd hle (by cases es <;> simp)
  | succ n ih =>
      constructor
      · intro el hle st
        cases el with
        | lit l => simp [visitW, mapRadEl, Except.map]
        | attr nm owned =>
            have hsz : sizeOf owned ≤ n := by simp at hle; omega
            simp only [visitW, mapRadEl]
            by_cases hr : rKeys.contains nm
            · rw [if_pos hr, visitWList_scaleHead]
              exact ih.2 owned hsz st
            · rw [if_neg hr]
              exact ih.2 owned hsz st
        | other owned =>
            have hsz : sizeOf owned ≤ n := by simp at hle; omega
            simp only [visitW, mapRadEl]
            exact ih.2 owned hsz st
        | part nm dfs owned =>
            have hsz : sizeOf owned ≤ n := by simp at hle; omega
            have hcol := collectW_scale owned []
            rw [show scaleVals ([] : Vals) = [] from rfl] at hcol
            cases hc : collectW owned [] with
            | error e => simp [visitW, mapRadEl, hcol, hc, Except.map]
            | ok vals =>
                have htx := getNumD_scale_nonrot vals ("tx") (by decide)
                have hty := getNumD_scale_nonrot vals ("ty") (by decide)
                have htz := getNumD_scale_nonrot vals ("tz") (by decide)
                have hrx := getNumD_scale_rot vals ("rx") (by decide)
                have hry := getNumD_scale_rot vals ("ry") (by decide)
                have hrz := getNumD_scale_rot vals ("rz") (by decide)
                have hurl : dget (scaleVals vals) ("onshape_url") = dget vals ("onshape_url") := by
                  rw [dget_scaleVals]
                  cases dget vals ("onshape_url") <;> rfl
                cases hgtx : getNumD vals ("tx") with
                | error e =>
                    simp [visitW, mapRadEl, hcol, hc, Except.map, htx, hgtx]
                | ok ltx =>
                cases hgty : getNumD vals ("ty") with
                | error e =>
                    simp [visitW, mapRadEl, hcol, hc, Except.map, htx, hty, hgtx, hgty]
                | ok lty =>
                cases hgtz : getNumD vals ("tz") with
                | error e =>
                    simp [visitW, mapRadEl, hcol, hc, Except.map, htx, hty, htz,
                          hgtx, hgty, hgtz]
                | ok ltz =>
                cases hgrx : getNumD vals ("rx") with
                | error e =>
                    simp [visitW, mapRadEl, hcol, hc, Except.map, htx, hty, htz, hrx,
                          hgtx, hgty, hgtz, hgrx]
                | ok lrx0 =>
                cases hgry : getNumD vals ("ry") with
                | error e =>
                    simp [visitW, mapRadEl, hcol, hc, Except.map, htx, hty, htz, hrx, hry,
                          hgtx, hgty, hgtz, hgrx, hgry]
                | ok lry0 =>
                cases hgrz : getNumD vals ("rz") with
                | error e =>
                    simp [visitW, mapRadEl, hcol, hc, Except.map, htx, hty, htz, hrx, hry,
                          hrz, hgtx, hgty, hgtz, hgrx, hgry, hgrz]
                | ok lrz0 =>
                cases hpf : compParentFields st.compParent with
                | error e =>
                    simp [visitW, mapRadEl, hcol, hc, Except.map, htx, hty, htz, hrx, hry,
                          hrz, hgtx, hgty, hgtz, hgrx, hgry, hgrz, hpf, toRadQ_true,
                          toRadQ_false, mul_div_assoc]
                | ok pf =>
                    simp only [visitW, mapRadEl, hcol, hc, Except.map, htx, hty, htz,
                               hrx, hry, hrz, hgtx, hgty, hgtz, hgrx, hgry, hgrz, hpf,
                               toRadQ_true, toRadQ_false, mul_div_assoc, hurl]
                    rw [ih.2 owned hsz]
                    refine except_cons_map _ _ _ ?_
                    simp [recToDeg, toDegQ_scale]
      · intro es hle st
        cases es with
        | nil => simp [visitWList, mapRadList, Except.map]
        | cons e es =>
            have hsze : sizeOf e ≤ n := by simp at hle; omega
            have hszs : sizeOf es ≤ n := by simp at hle; omega
            simp only [visitWList, mapRadList]
            rw [ih.1 e hsze st]
            cases hv : visitW false tm ef (mapRadEl e) st with
            | error err => rfl
            | ok r =>
                rw [ih.2 es hszs st]
                cases hl : visitWList false tm ef (mapRadList es) st with
                | error err => rfl
                | ok rs => simp [Except.map, List.map_append]

/-- C7: degree/radian conversion happens only at the boundaries. For every
document tree and every (abstract) local-transform builder and Euler
extractor, running `components_from_part_world` with
`angles_in_degrees = True` on a tree whose rotation attributes are given in
degrees produces exactly the records of the `angles_in_degrees = False` run
on the radian-equivalent tree (each rotation attribute value multiplied by
pi/180), with each output record's rotation fields converted back by one
`to_deg` application: the input conversion is applied exactly once per
input angle before `transformation_matrix`, the output conversion exactly
once per output angle after Euler extraction, and the absolute translation
columns — the composed world transform — agree exactly between the two
runs. -/
theorem c7_degree_radian_boundary (tm : Q3 → Q3 → Mat4Q) (ef : Mat4Q → Q3) (t : Element) :
    componentsFromPartWorld true tm ef t =
      Except.map (List.map recToDeg) (componentsFromPartWorld false tm ef (mapRadEl t)) := by
  unfold componentsFromPartWorld
  exact (visitW_rad tm ef (sizeOf t)).1 t le_rfl _
